import Mathlib

/-!
Verification of the rustable Medusa authorization server against its
specification. Rust code is shallowly embedded: byte slices become
`List Nat` (well-formed entries are `< 256`), machine integers become
`Nat`/`Int` with explicit wrapping where it matters, fallible operations
return `Option`/`Except`, and in-place mutation becomes explicit state
passing. Rust panics are modelled as `Option.none` results or appear as
range hypotheses on theorems.

The file lists all definitions first and all theorems afterwards.
-/

namespace Rustable

/-! ### Bitmap primitives, from `src/bitmap.rs`.

`set_bit`/`clear_bit` index byte `n / 8`, bit `n % 8` (LSB first). Rust
panics when `n / 8` is out of range; `List.set` leaves the list unchanged
there, so theorems carry `n < 8 * v.length` hypotheses. -/

namespace bitmap

def set_bit (v : List Nat) (n : Nat) : List Nat :=
  v.set (n / 8) (v.getD (n / 8) 0 ||| 1 <<< (n % 8))

def clear_bit (v : List Nat) (n : Nat) : List Nat :=
  v.set (n / 8) (v.getD (n / 8) 0 &&& (255 ^^^ 1 <<< (n % 8)))

def set_all (v : List Nat) : List Nat :=
  v.map fun _ => 255

def clear_all (v : List Nat) : List Nat :=
  v.map fun _ => 0

def all (v : List Nat) : Bool :=
  v.all (· == 255)

def and (left right : List Nat) : List Nat :=
  List.zipWith (· &&& ·) left right

/-- Observer used to state bit-level properties: bit `n` of a byte vector
(lower byte first, least-significant bit first). The Rust module has no
`get_bit`; this is the reading the spec's bitmap section assigns to the
vectors. -/
def getBit (v : List Nat) (n : Nat) : Bool :=
  (v.getD (n / 8) 0).testBit (n % 8)

end bitmap

/-! ### Connection setup, from `src/medusa/mcp.rs` (`Connection::new`) and
`src/medusa/constants.rs`. `Connection::new` reads the 8-byte greeting,
panics on an unknown byte order, aborts with `unimplemented!` on the
reversed order, then reads the 8-byte protocol version, prints it and
proceeds to construct the connection without ever comparing it to
`PROTOCOL_VERSION`; `ConnectionError::UnsupportedVersion` is never
produced. -/

def GREETING_NATIVE_BYTE_ORDER : Nat := 0x0000000066007e5a

def GREETING_REVERSED_BYTE_ORDER : Nat := 0x5a7e006600000000

def PROTOCOL_VERSION : Nat := 2

inductive SetupOutcome where
  /-- Setup returns `Ok(Self)` and the caller may enter the run loop. -/
  | proceeds
  /-- `panic!("unknown byte order")`. -/
  | panicUnknownByteOrder
  /-- `unimplemented!("reversed byte order")`. -/
  | unimplementedReversedByteOrder
deriving DecidableEq

def connection_new (greeting : Nat) (version : Nat) : SetupOutcome :=
  if greeting = GREETING_NATIVE_BYTE_ORDER then
    -- the version is read and printed, but not validated
    let _ := version
    SetupOutcome.proceeds
  else if greeting = GREETING_REVERSED_BYTE_ORDER then
    SetupOutcome.unimplementedReversedByteOrder
  else
    SetupOutcome.panicUnknownByteOrder

/-! ### Attribute store, from `src/medusa/attribute.rs` and
`src/medusa/constants.rs`.

`MedusaAttributes` wraps a `LinkedHashMap<String, MedusaAttribute>`:
insertion-ordered with unique keys, modelled as a list searched by name.
`i16` header fields are `Int`; `as usize` is the 64-bit sign-extending
cast. -/

inductive AttributeError where
  | unknownAttribute (name : String)
  | modifyReadOnlyError (name : String)
deriving DecidableEq

inductive AttributeEndianness where
  | native
  | unused
  | big
  | little
deriving DecidableEq

inductive AttributeDataType where
  /-- `MED_COMM_TYPE_END`, written `End` in the source. -/
  | endMarker
  | unsigned
  | signed
  | string
  | bitmapType
  | bytes
deriving DecidableEq

/-- `AttributeMods` bit flag. -/
def READ_ONLY : Nat := 0x80

/-- `AttributeMods` bit flag. -/
def PRIMARY_KEY : Nat := 0x40

structure MedusaAttributeHeader where
  offset : Int
  length : Int
  mods : Nat
  endianness : AttributeEndianness
  dataType : AttributeDataType
  name : String
deriving DecidableEq

/-- `AttributeMods::contains(AttributeMods::READ_ONLY)`. -/
def MedusaAttributeHeader.is_read_only (h : MedusaAttributeHeader) : Bool :=
  h.mods &&& READ_ONLY == READ_ONLY

structure MedusaAttribute where
  header : MedusaAttributeHeader
  data : List Nat
deriving DecidableEq

/-- Rust `as usize` on an `i16`-ranged value (sign extension to 64 bits). -/
def i16_as_usize (i : Int) : Nat := (i % (2 ^ 64 : Int)).toNat

/-- `MedusaAttribute::pack_data`: the data chained with repeated zeros,
truncated to the header's length. -/
def MedusaAttribute.pack_data (a : MedusaAttribute) : List Nat :=
  (a.data ++ List.replicate (i16_as_usize a.header.length) 0).take
    (i16_as_usize a.header.length)

/-- The byte offset an attribute occupies in the packed buffer
(`header.offset as usize`). -/
def attrOff (a : MedusaAttribute) : Nat := i16_as_usize a.header.offset

/-- The byte length an attribute occupies in the packed buffer
(`header.length as usize`). -/
def attrLen (a : MedusaAttribute) : Nat := i16_as_usize a.header.length

/-- Two attributes occupy disjoint byte ranges of the packed buffer. -/
def rangesDisjoint (a b : MedusaAttribute) : Prop :=
  attrOff a + attrLen a ≤ attrOff b ∨ attrOff b + attrLen b ≤ attrOff a

instance (a b : MedusaAttribute) : Decidable (rangesDisjoint a b) := by
  unfold rangesDisjoint
  infer_instance

structure MedusaAttributes where
  inner : List MedusaAttribute
deriving DecidableEq

namespace MedusaAttributes

def get (s : MedusaAttributes) (name : String) : Option (List Nat) :=
  (s.inner.find? fun a => a.header.name == name).map (·.data)

/-- `MedusaAttributes::set` on the underlying entry list. Rust mutates in
place and returns a `Result`; the model returns the result together with
the store left behind (unchanged on error). -/
def setInner (name : String) (data : List Nat) :
    List MedusaAttribute → Except AttributeError Unit × List MedusaAttribute
  | [] => (.error (.unknownAttribute name), [])
  | a :: rest =>
    if a.header.name == name then
      if a.header.is_read_only then
        (.error (.modifyReadOnlyError name), a :: rest)
      else
        (.ok (), { a with data := data } :: rest)
    else
      let r := setInner name data rest
      (r.1, a :: r.2)

def set (s : MedusaAttributes) (name : String) (data : List Nat) :
    Except AttributeError Unit × MedusaAttributes :=
  let r := setInner name data s.inner
  (r.1, ⟨r.2⟩)

/-- `MedusaAttributes::get_mut`: returns the data slice for in-place
mutation; only the unknown-attribute error is possible. -/
def get_mut (s : MedusaAttributes) (name : String) :
    Except AttributeError (List Nat) :=
  match s.inner.find? (fun a => a.header.name == name) with
  | some a => .ok a.data
  | none => .error (.unknownAttribute name)

/-- In-place mutation through `get_mut`: Rust hands the caller a
`&mut [u8]` and the caller applies a transformation to it; the model
applies `f` to the found entry's data. -/
def modifyInner (name : String) (f : List Nat → List Nat) :
    List MedusaAttribute → Except AttributeError Unit × List MedusaAttribute
  | [] => (.error (.unknownAttribute name), [])
  | a :: rest =>
    if a.header.name == name then
      (.ok (), { a with data := f a.data } :: rest)
    else
      let r := modifyInner name f rest
      (r.1, a :: r.2)

def modify (s : MedusaAttributes) (name : String) (f : List Nat → List Nat) :
    Except AttributeError Unit × MedusaAttributes :=
  let r := modifyInner name f s.inner
  (r.1, ⟨r.2⟩)

/-- `MedusaAttributes::set_from_raw`: for each entry, copy
`raw[offset..][..length]` into its data. Rust panics when a range is out
of bounds; theorems carry in-bounds hypotheses. -/
def set_from_raw (s : MedusaAttributes) (raw : List Nat) : MedusaAttributes :=
  ⟨s.inner.map fun a =>
    { a with
      data := ((raw.drop (i16_as_usize a.header.offset)).take
        (i16_as_usize a.header.length)) }⟩

/-- Byte-by-byte store into `res` starting at `off`, as in the `pack`
loop `res[offset + i] = data[i]`. -/
def writeAt : List Nat → Nat → List Nat → List Nat
  | res, _, [] => res
  | res, off, b :: bs => writeAt (res.set off b) (off + 1) bs

/-- `MedusaAttributes::pack`. -/
def pack (s : MedusaAttributes) (res : List Nat) : List Nat :=
  s.inner.foldl (fun r a => writeAt r (i16_as_usize a.header.offset) a.pack_data) res

/-- `MedusaAttributes::push` (`LinkedHashMap::insert`): replace the entry
with the same name keeping its position, or append. -/
def pushInner (a : MedusaAttribute) :
    List MedusaAttribute → List MedusaAttribute
  | [] => [a]
  | b :: rest =>
    if b.header.name == a.header.name then a :: rest
    else b :: pushInner a rest

def push (s : MedusaAttributes) (a : MedusaAttribute) : MedusaAttributes :=
  ⟨pushInner a s.inner⟩

end MedusaAttributes

/-! ### Classes and their bit-level helpers, from
`rustable/src/medusa/class.rs` and `src/medusa/constants.rs`. -/

def MEDUSA_VS_ATTR_NAME : String := "vs"

def MEDUSA_VSR_ATTR_NAME : String := "vsr"

def MEDUSA_VSW_ATTR_NAME : String := "vsw"

def MEDUSA_VSS_ATTR_NAME : String := "vss"

def MEDUSA_OACT_ATTR_NAME : String := "med_oact"

def MEDUSA_SACT_ATTR_NAME : String := "med_sact"

def MEDUSA_OCINFO_ATTR_NAME : String := "o_cinfo"

structure MedusaClassHeader where
  id : Nat
  size : Int
  name : String
deriving DecidableEq

structure MedusaClass where
  header : MedusaClassHeader
  attributes : MedusaAttributes
deriving DecidableEq

/-- `u64::to_le_bytes` (and `usize::to_le_bytes` on the 64-bit target):
the `AttributeBytes` encoding used by `set_attribute::<u64>`. -/
def u64_to_le_bytes (x : Nat) : List Nat :=
  [x % 256, (x >>> 8) % 256, (x >>> 16) % 256, (x >>> 24) % 256,
    (x >>> 32) % 256, (x >>> 40) % 256, (x >>> 48) % 256, (x >>> 56) % 256]

namespace MedusaClass

def get_vs (c : MedusaClass) : Option (List Nat) :=
  c.attributes.get MEDUSA_VS_ATTR_NAME

def set_attribute_u64 (c : MedusaClass) (attr_name : String) (x : Nat) :
    Except AttributeError Unit × MedusaClass :=
  let r := c.attributes.set attr_name (u64_to_le_bytes x)
  (r.1, { c with attributes := r.2 })

def add_vs (c : MedusaClass) (n : Nat) :
    Except AttributeError Unit × MedusaClass :=
  let r := c.attributes.modify MEDUSA_VS_ATTR_NAME fun vs => bitmap.set_bit vs n
  (r.1, { c with attributes := r.2 })

def remove_vs (c : MedusaClass) (n : Nat) :
    Except AttributeError Unit × MedusaClass :=
  let r := c.attributes.modify MEDUSA_VS_ATTR_NAME fun vs => bitmap.clear_bit vs n
  (r.1, { c with attributes := r.2 })

def set_vs (c : MedusaClass) (vs : List Nat) :
    Except AttributeError Unit × MedusaClass :=
  let r := c.attributes.set MEDUSA_VS_ATTR_NAME vs
  (r.1, { c with attributes := r.2 })

def clear_vs (c : MedusaClass) : Except AttributeError Unit × MedusaClass :=
  let r := c.attributes.modify MEDUSA_VS_ATTR_NAME bitmap.clear_all
  (r.1, { c with attributes := r.2 })

def set_vs_read (c : MedusaClass) (vs : List Nat) :
    Except AttributeError Unit × MedusaClass :=
  let r := c.attributes.set MEDUSA_VSR_ATTR_NAME vs
  (r.1, { c with attributes := r.2 })

def set_vs_write (c : MedusaClass) (vs : List Nat) :
    Except AttributeError Unit × MedusaClass :=
  let r := c.attributes.set MEDUSA_VSW_ATTR_NAME vs
  (r.1, { c with attributes := r.2 })

def set_vs_see (c : MedusaClass) (vs : List Nat) :
    Except AttributeError Unit × MedusaClass :=
  let r := c.attributes.set MEDUSA_VSS_ATTR_NAME vs
  (r.1, { c with attributes := r.2 })

def add_object_act (c : MedusaClass) (n : Nat) :
    Except AttributeError Unit × MedusaClass :=
  let r := c.attributes.modify MEDUSA_OACT_ATTR_NAME fun oact => bitmap.set_bit oact n
  (r.1, { c with attributes := r.2 })

def remove_object_act (c : MedusaClass) (n : Nat) :
    Except AttributeError Unit × MedusaClass :=
  let r := c.attributes.modify MEDUSA_OACT_ATTR_NAME fun oact => bitmap.clear_bit oact n
  (r.1, { c with attributes := r.2 })

def clear_object_act (c : MedusaClass) :
    Except AttributeError Unit × MedusaClass :=
  let r := c.attributes.modify MEDUSA_OACT_ATTR_NAME bitmap.clear_all
  (r.1, { c with attributes := r.2 })

def add_subject_act (c : MedusaClass) (n : Nat) :
    Except AttributeError Unit × MedusaClass :=
  let r := c.attributes.modify MEDUSA_SACT_ATTR_NAME fun sact => bitmap.set_bit sact n
  (r.1, { c with attributes := r.2 })

def remove_subject_act (c : MedusaClass) (n : Nat) :
    Except AttributeError Unit × MedusaClass :=
  let r := c.attributes.modify MEDUSA_SACT_ATTR_NAME fun sact => bitmap.clear_bit sact n
  (r.1, { c with attributes := r.2 })

def clear_subject_act (c : MedusaClass) :
    Except AttributeError Unit × MedusaClass :=
  let r := c.attributes.modify MEDUSA_SACT_ATTR_NAME bitmap.clear_all
  (r.1, { c with attributes := r.2 })

/-- `set_object_cinfo`: `set_attribute::<usize>` of the node identity. -/
def set_object_cinfo (c : MedusaClass) (cinfo : Nat) :
    Except AttributeError Unit × MedusaClass :=
  c.set_attribute_u64 MEDUSA_OCINFO_ATTR_NAME cinfo

end MedusaClass

/-! ### Event types, from `rustable/src/medusa/event.rs`. -/

inductive Monitoring where
  | subject
  | object
deriving DecidableEq

structure MedusaEvtypeHeader where
  evid : Nat
  size : Nat
  monitoring : Monitoring
  monitoring_bit : Nat
  ev_sub : Nat
  /-- `Option<NonZeroU64>`. -/
  ev_obj : Option Nat
  name : String
  ev_name : String × String
deriving DecidableEq

/-! ### Virtual spaces and policy tree, from `rustable/src/medusa/space.rs`
and `rustable/src/medusa/tree.rs`. -/

inductive AccessType where
  | member
  | read
  | write
  | see
deriving DecidableEq

/-- `VirtualSpace`: the four per-access-type bitmaps (`access_types`
array indexed by `AccessType`). -/
structure VirtualSpace where
  member : List Nat
  read : List Nat
  write : List Nat
  see : List Nat
deriving DecidableEq

def VirtualSpace.to_at_bytes (vs : VirtualSpace) : AccessType → List Nat
  | .member => vs.member
  | .read => vs.read
  | .write => vs.write
  | .see => vs.see

/-- Tree node. The compiled, anchored `path_regex` is abstracted as the
whole-segment matching predicate `path_matches`; node identity
(`Arc::as_ptr`) is supplied externally where needed. -/
inductive Node where
  | mk (path_matches : List Char → Bool) (recursive : Bool)
      (vs : VirtualSpace) (children : List Node)

def Node.path_matches : Node → List Char → Bool
  | .mk f _ _ _ => f

def Node.is_recursive : Node → Bool
  | .mk _ r _ _ => r

def Node.virtual_space : Node → VirtualSpace
  | .mk _ _ v _ => v

def Node.children : Node → List Node
  | .mk _ _ _ c => c

def Node.has_children (n : Node) : Bool :=
  n.children.length > 0

/-- `child_by_path`: the first child whose regex matches the whole
segment. -/
def Node.child_by_path (n : Node) (part : List Char) : Option Node :=
  n.children.find? fun c => c.path_matches part

/-- `str::split` on a separator character, over the char-list view of the
string. -/
def splitChar (sep : Char) : List Char → List (List Char)
  | [] => [[]]
  | c :: cs =>
    let r := splitChar sep cs
    if c = sep then [] :: r
    else (c :: r.headD []) :: r.tail

/-- `str::split_terminator('/')`: like split, omitting the final empty
segment produced by a trailing separator. -/
def split_terminator_slash (path : List Char) : List (List Char) :=
  let l := splitChar '/' path
  if l.getLast? = some [] then l.dropLast else l

/-- The segment walk inside `MedusaClass::enter_tree`: descend via
`child_by_path`; on a miss fall back to the most recently seen recursive
node (panic — modelled `none` — when there is none) and mark the walk as
recursed. -/
def walkLoop (node : Node) (recursive_parent : Option Node) (recursed : Bool) :
    List (List Char) → Option (Node × Bool)
  | [] => some (node, recursed)
  | part :: rest =>
    match node.child_by_path part with
    | some ch =>
      walkLoop ch (if ch.is_recursive then some ch else recursive_parent)
        recursed rest
    | none =>
      match recursive_parent with
      | some r => walkLoop r recursive_parent true rest
      | none => none

/-- `MedusaClass::set_access_types`: copy the node's four bitmaps into the
`vs`/`vsr`/`vsw`/`vss` attributes, ignoring failures (`let _ = ...`). -/
def MedusaClass.set_access_types (c : MedusaClass) (vs : VirtualSpace) :
    MedusaClass :=
  let c := (c.set_vs (vs.to_at_bytes .member)).2
  let c := (c.set_vs_read (vs.to_at_bytes .read)).2
  let c := (c.set_vs_write (vs.to_at_bytes .write)).2
  (c.set_vs_see (vs.to_at_bytes .see)).2

/-- `MedusaClass::enter_tree_with_node`. `covered_events` is the loaded
`config.covered_events_mask`; `cinfo` stands for `Arc::as_ptr(node)`, the
landed node's machine address; the trailing `update` request is I/O and
outside the model. `set_object_cinfo(...).unwrap()` panics on error
(modelled `none`). -/
def MedusaClass.enter_tree_with_node (c : MedusaClass) (covered_events : Nat)
    (evtype : MedusaEvtypeHeader) (node : Node) (recursed : Bool)
    (cinfo : Nat) : Option MedusaClass :=
  let c := c.set_access_types node.virtual_space
  let c := (c.set_attribute_u64 MEDUSA_OACT_ATTR_NAME covered_events).2
  let c := (c.set_attribute_u64 MEDUSA_SACT_ATTR_NAME covered_events).2
  let c :=
    if recursed || !(node.has_children && evtype.monitoring == Monitoring.object)
    then
      let c := (c.remove_object_act evtype.monitoring_bit).2
      (c.remove_subject_act evtype.monitoring_bit).2
    else c
  let r := c.set_object_cinfo cinfo
  match r.1 with
  | .ok _ => some r.2
  | .error _ => none

/-- `MedusaClass::enter_tree`: asserts the path starts with `'/'`
(modelled `none`), splits it on `'/'` dropping the leading empty segment
(`split_terminator('/').skip(1)`), walks the tree and enters the landed
node. The `primary_tree` name lookup is abstracted to the tree's root
node. -/
def MedusaClass.enter_tree (c : MedusaClass) (covered_events : Nat)
    (root : Node) (evtype : MedusaEvtypeHeader) (path : List Char)
    (cinfo : Nat) : Option MedusaClass :=
  if path.head? ≠ some '/' then none
  else
    let parts := if path = ['/'] then []
      else (split_terminator_slash path).drop 1
    let rp := if root.is_recursive then some root else none
    match walkLoop root rp false parts with
    | none => none
    | some (node, recursed) =>
      c.enter_tree_with_node covered_events evtype node recursed cinfo

/-! ### Space bitmaps, from `rustable/src/medusa/space.rs`. -/

inductive Space where
  | all
  | byName (name : String)
deriving DecidableEq

/-- `SpaceDef`: the next unused bit id and the name-to-id map (`HashMap`,
modelled as an association list with unique keys). -/
structure SpaceDef where
  id_cn : Nat
  name_to_id : List (String × Nat)
deriving DecidableEq

def SpaceDef.lookup (d : SpaceDef) (name : String) : Option Nat :=
  (d.name_to_id.find? fun p => p.1 == name).map (·.2)

def SpaceDef.bitmap_nbytes (d : SpaceDef) : Nat :=
  (d.id_cn + 7) / 8

/-- The loop body of `spaces_to_bitmap`: `All` sets every byte,
`ByName(name)` with nonempty `name` sets the id's bit (`panic` — modelled
`none` — when the name is undefined), anything else is skipped. -/
def spaces_to_bitmap_go (d : SpaceDef) :
    List Space → List Nat → Option (List Nat)
  | [], v => some v
  | .all :: rest, v => spaces_to_bitmap_go d rest (bitmap.set_all v)
  | .byName name :: rest, v =>
    if name = "" then spaces_to_bitmap_go d rest v
    else
      match d.lookup name with
      | some id => spaces_to_bitmap_go d rest (bitmap.set_bit v id)
      | none => none

def spaces_to_bitmap (spaces : List Space) (d : SpaceDef) :
    Option (List Nat) :=
  spaces_to_bitmap_go d spaces (List.replicate d.bitmap_nbytes 0)

/-- Observer for the stated bitmap contents: some element of `S` is a
nonempty `ByName` whose id is `n`. -/
def mentions_id (d : SpaceDef) (spaces : List Space) (n : Nat) : Bool :=
  spaces.any fun sp =>
    match sp with
    | .all => false
    | .byName name => !(name == "") && d.lookup name == some n

/-! ### Event handlers, from `rustable/src/medusa/handler.rs`. -/

structure HandlerData where
  event : String
  /-- The `attribute` field (path attribute for hierarchy lookups);
  renamed because `attribute` is reserved in Lean. -/
  attr : Option String
  from_object : Bool
  primary_tree : String
  subject_vs : List Nat
  object_vs : List Nat
  bitmap_nbytes : Nat
deriving DecidableEq

/-- The object half of `EventHandler::is_applicable`: skipped when the
object mask is all-ones or the object is absent; `none` models the
`expect` panic on a missing `vs` attribute or a too-short slice. -/
def is_applicable_object_check (h : HandlerData) (object : Option MedusaClass) :
    Option Bool :=
  if !bitmap.all h.object_vs then
    match object with
    | some o =>
      match o.get_vs with
      | none => none
      | some ovs =>
        if ovs.length < h.bitmap_nbytes then none
        else if bitmap.and h.object_vs (ovs.take h.bitmap_nbytes) ≠ h.object_vs
        then some false
        else some true
    | none => some true
  else some true

/-- `EventHandler::is_applicable`: the subject check runs only when the
subject mask is not all-ones; then the object check. `none` models the
`expect` panic on a missing subject `vs` or a too-short slice. -/
def is_applicable (h : HandlerData) (subject : MedusaClass)
    (object : Option MedusaClass) : Option Bool :=
  if !bitmap.all h.subject_vs then
    match subject.get_vs with
    | none => none
    | some svs =>
      if svs.length < h.bitmap_nbytes then none
      else if bitmap.and h.subject_vs (svs.take h.bitmap_nbytes) ≠ h.subject_vs
      then some false
      else is_applicable_object_check h object
  else is_applicable_object_check h object

/-- Observer for the claimed applicability condition: every bit set in
`mask` (over the mask's byte length) is also set in `vsbytes`. -/
def bits_subset (mask vsbytes : List Nat) : Bool :=
  (List.range (8 * mask.length)).all fun i =>
    !bitmap.getBit mask i || bitmap.getBit vsbytes i

/-! ### Event-type registration, from `src/medusa/mcp.rs`
(`Connection::register_kevtype_def`). The wire struct `MedusaCommEvtype`
keeps the raw per-side attribute-name byte arrays that the collapse
compares. -/

def MEDUSA_COMM_ATTRNAME_MAX : Nat := 32 - 5

structure MedusaCommEvtype where
  evid : Nat
  size : Nat
  actbit : Nat
  ev_sub : Nat
  ev_obj : Nat
  name : List Nat
  ev_name : List Nat × List Nat
deriving DecidableEq

/-- Association-list insert with `HashMap::insert` semantics: replace the
entry with the same key, or append. -/
def insertAssoc {α : Type} (key : Nat) (val : α) :
    List (Nat × α) → List (Nat × α)
  | [] => [(key, val)]
  | p :: rest =>
    if p.1 = key then (key, val) :: rest
    else p :: insertAssoc key val rest

def lookupAssoc {α : Type} (m : List (Nat × α)) (key : Nat) : Option α :=
  (m.find? fun p => p.1 == key).map (·.2)

/-- `Connection::register_kevtype_def` without the logging: looks up the
subject and object classes (`expect` panics — `none`), collapses the
object side when subject and object class ids and the two per-side
attribute names coincide, then inserts the event type by `evid`. The
trailing attribute-list read only prints and is dropped here. -/
def register_kevtype_def (classes : List (Nat × MedusaClass))
    (evtypes : List (Nat × MedusaCommEvtype)) (kevtype : MedusaCommEvtype) :
    Option (List (Nat × MedusaCommEvtype)) :=
  match lookupAssoc classes kevtype.ev_sub, lookupAssoc classes kevtype.ev_obj with
  | some _, some _ =>
    let kevtype :=
      if kevtype.ev_sub = kevtype.ev_obj ∧ kevtype.ev_name.1 = kevtype.ev_name.2
      then { kevtype with
        ev_obj := 0
        ev_name := (kevtype.ev_name.1, List.replicate MEDUSA_COMM_ATTRNAME_MAX 0) }
      else kevtype
    some (insertAssoc kevtype.evid kevtype evtypes)
  | _, _ => none

/-! ### Class registration and registry lookup, from
`rustable/src/medusa/reader.rs` (`AsyncReader::read_attributes`),
`src/medusa/mcp.rs` (`register_kclass_def`) and
`rustable/src/medusa/context.rs` (`Context::empty_class_from_id`). -/

/-- `AsyncReader::read_attributes`: read attribute headers until the
end-marker data type, each pushed with `data: Vec::new()`. The input is
the stream of parsed headers, which contains an end marker. -/
def read_attributes (headers : List MedusaAttributeHeader) :
    List MedusaAttribute :=
  (headers.takeWhile fun h => !(h.dataType == AttributeDataType.endMarker)).map
    fun h => ⟨h, []⟩

/-- Handling of a class-definition command: build the class from its
header and the attributes read until the end marker, then insert it into
the registry by class id. -/
def register_class (classes : List (Nat × MedusaClass))
    (header : MedusaClassHeader) (attr_headers : List MedusaAttributeHeader) :
    List (Nat × MedusaClass) :=
  let attrs := (read_attributes attr_headers).foldl
    (fun s a => s.push a) (MedusaAttributes.mk [])
  insertAssoc header.id ⟨header, attrs⟩ classes

/-- `Context::empty_class_from_id`: clone the registry entry. -/
def empty_class_from_id (classes : List (Nat × MedusaClass)) (class_id : Nat) :
    Option MedusaClass :=
  lookupAssoc classes class_id

end Rustable

namespace Rustable

/-! ### Theorems. -/

/-! #### Bit-level lemmas about the bitmap primitives. -/

theorem length_set_bit (v : List Nat) (n : Nat) :
    (bitmap.set_bit v n).length = v.length := by
  simp [bitmap.set_bit]

theorem length_clear_bit (v : List Nat) (n : Nat) :
    (bitmap.clear_bit v n).length = v.length := by
  simp [bitmap.clear_bit]

theorem getD_set_self (v : List Nat) (i : Nat) (b : Nat) (h : i < v.length) :
    (v.set i b).getD i 0 = b := by
  simp [List.getD_eq_getElem?_getD, List.getElem?_set_self h]

theorem getD_set_ne (v : List Nat) (i j : Nat) (b : Nat) (h : i ≠ j) :
    (v.set i b).getD j 0 = v.getD j 0 := by
  simp [List.getD_eq_getElem?_getD, List.getElem?_set_ne h]

theorem getBit_set_bit (v : List Nat) (i n : Nat) (hi : i < 8 * v.length)
    (hn : n < 8 * v.length) :
    bitmap.getBit (bitmap.set_bit v i) n = (bitmap.getBit v n || n == i) := by
  have hi8 : i / 8 < v.length := Nat.div_lt_of_lt_mul (by omega)
  by_cases hb : n / 8 = i / 8
  · have heq : (bitmap.set_bit v i).getD (n / 8) 0
        = v.getD (i / 8) 0 ||| 1 <<< (i % 8) := by
      rw [bitmap.set_bit, hb, getD_set_self _ _ _ hi8]
    rw [bitmap.getBit, heq]
    have h1 : (1 : Nat) <<< (i % 8) = 2 ^ (i % 8) := by
      simp [Nat.shiftLeft_eq]
    rw [h1, Nat.testBit_lor, ← hb]
    by_cases hmod : n % 8 = i % 8
    · have hni : n = i := by omega
      simp [hni, Nat.testBit_two_pow_self]
    · have hzero : (2 ^ (i % 8)).testBit (n % 8) = false := by
        exact Nat.testBit_two_pow_of_ne (fun hc => hmod hc.symm)
      have hne : (n == i) = false := by
        simp only [beq_eq_false_iff_ne]
        omega
      simp [hzero, hne, bitmap.getBit]
  · have heq : (bitmap.set_bit v i).getD (n / 8) 0 = v.getD (n / 8) 0 := by
      rw [bitmap.set_bit, getD_set_ne _ _ _ _ (fun hc => hb hc.symm)]
    have hne : (n == i) = false := by
      simp only [beq_eq_false_iff_ne]
      omega
    rw [bitmap.getBit, heq, bitmap.getBit, hne, Bool.or_false]

theorem testBit_mask255 (k j : Nat) (hk : k < 8) :
    (255 ^^^ 1 <<< k).testBit j = (decide (j < 8) && !(j == k)) := by
  have h1 : (1 : Nat) <<< k = 2 ^ k := by simp [Nat.shiftLeft_eq]
  have h255 : (255 : Nat) = 2 ^ 8 - 1 := by norm_num
  rw [h1, Nat.testBit_xor, h255, Nat.testBit_two_pow_sub_one]
  by_cases hjk : j = k
  · simp [hjk, Nat.testBit_two_pow_self, hk]
  · have hz : (2 ^ k).testBit j = false :=
      Nat.testBit_two_pow_of_ne (fun hc => hjk hc.symm)
    simp [hz, hjk]

theorem getBit_clear_bit (v : List Nat) (i n : Nat) (hi : i < 8 * v.length)
    (hn : n < 8 * v.length) :
    bitmap.getBit (bitmap.clear_bit v i) n = (bitmap.getBit v n && !(n == i)) := by
  have hi8 : i / 8 < v.length := Nat.div_lt_of_lt_mul (by omega)
  by_cases hb : n / 8 = i / 8
  · have heq : (bitmap.clear_bit v i).getD (n / 8) 0
        = v.getD (i / 8) 0 &&& (255 ^^^ 1 <<< (i % 8)) := by
      rw [bitmap.clear_bit, hb, getD_set_self _ _ _ hi8]
    rw [bitmap.getBit, heq, Nat.testBit_land,
      testBit_mask255 _ _ (Nat.mod_lt _ (by norm_num))]
    have hlt : n % 8 < 8 := Nat.mod_lt _ (by norm_num)
    have hmm : ((n % 8 : Nat) == i % 8) = (n == i) := by
      by_cases hni : n = i
      · simp [hni]
      · have hne8 : n % 8 ≠ i % 8 := by omega
        simp only [beq_eq_false_iff_ne.mpr hne8, beq_eq_false_iff_ne.mpr hni]
    rw [hmm]
    simp [bitmap.getBit, hb, hlt]
  · have heq : (bitmap.clear_bit v i).getD (n / 8) 0 = v.getD (n / 8) 0 := by
      rw [bitmap.clear_bit, getD_set_ne _ _ _ _ (fun hc => hb hc.symm)]
    have hne : (n == i) = false := by
      simp only [beq_eq_false_iff_ne]
      omega
    rw [bitmap.getBit, heq, bitmap.getBit, hne]
    simp

theorem set_eq_self_of_getD (v : List Nat) (i : Nat) :
    v.set i (v.getD i 0) = v := by
  apply List.ext_getElem?
  intro j
  by_cases hij : i = j
  · subst hij
    by_cases h : i < v.length
    · simp [List.getElem?_set_self h, List.getD_eq_getElem?_getD,
        List.getElem?_eq_getElem h]
    · rw [List.set_eq_of_length_le (Nat.le_of_not_lt h)]
  · simp [List.getElem?_set_ne hij]

theorem clear_set_eq_clear (v : List Nat) (n : Nat) :
    bitmap.clear_bit (bitmap.set_bit v n) n = bitmap.clear_bit v n := by
  by_cases h : n / 8 < v.length
  · have hd : (bitmap.set_bit v n).getD (n / 8) 0
        = v.getD (n / 8) 0 ||| 1 <<< (n % 8) := by
      rw [bitmap.set_bit, getD_set_self _ _ _ h]
    rw [bitmap.clear_bit, hd, bitmap.set_bit, List.set_set, bitmap.clear_bit]
    congr 1
    apply Nat.eq_of_testBit_eq
    intro j
    rw [Nat.testBit_land, Nat.testBit_lor, Nat.testBit_land]
    by_cases hj8 : j < 8
    · by_cases hjk : j = n % 8
      · have hmz : (255 ^^^ 1 <<< (n % 8)).testBit j = false := by
          rw [testBit_mask255 _ _ (Nat.mod_lt _ (by norm_num))]
          simp [hjk]
        simp [hmz]
      · have hone : ((1 : Nat) <<< (n % 8)).testBit j = false := by
          rw [Nat.shiftLeft_eq, one_mul]
          exact Nat.testBit_two_pow_of_ne (fun hc => hjk hc.symm)
        rw [hone, Bool.or_false]
    · have hmask : (255 ^^^ 1 <<< (n % 8)).testBit j = false := by
        rw [testBit_mask255 _ _ (Nat.mod_lt _ (by norm_num))]
        simp [hj8]
      simp [hmask]
  · have hset : bitmap.set_bit v n = v := by
      rw [bitmap.set_bit, List.set_eq_of_length_le (by omega)]
    rw [hset]

theorem byte_land_mask_eq_self (b k : Nat) (hb : b < 256) (hk : k < 8)
    (hbit : b.testBit k = false) : b &&& (255 ^^^ 1 <<< k) = b := by
  apply Nat.eq_of_testBit_eq
  intro j
  rw [Nat.testBit_land, testBit_mask255 _ _ hk]
  by_cases hj8 : j < 8
  · by_cases hjk : j = k
    · subst hjk
      simp [hbit]
    · simp [hj8, hjk]
  · have hhi : b.testBit j = false := by
      apply Nat.testBit_lt_two_pow
      calc b < 256 := hb
      _ = 2 ^ 8 := by norm_num
      _ ≤ 2 ^ j := Nat.pow_le_pow_right (by norm_num) (by omega)
    simp [hhi, hj8]

theorem clear_bit_eq_self (v : List Nat) (n : Nat)
    (hbytes : ∀ b ∈ v, b < 256) (hn : n < 8 * v.length)
    (hfalse : bitmap.getBit v n = false) :
    bitmap.clear_bit v n = v := by
  have h8 : n / 8 < v.length := Nat.div_lt_of_lt_mul (by omega)
  have hmem : v.getD (n / 8) 0 ∈ v := by
    rw [List.getD_eq_getElem?_getD, List.getElem?_eq_getElem h8]
    exact List.getElem_mem h8
  have hb : v.getD (n / 8) 0 < 256 := hbytes _ hmem
  have hbit : (v.getD (n / 8) 0).testBit (n % 8) = false := hfalse
  have hbyte : v.getD (n / 8) 0 &&& (255 ^^^ 1 <<< (n % 8)) = v.getD (n / 8) 0 :=
    byte_land_mask_eq_self _ _ hb (Nat.mod_lt _ (by norm_num)) hbit
  rw [bitmap.clear_bit, hbyte, set_eq_self_of_getD]

/-- Claim C9 counterexample: on `v = [1]`, `n = 0` (bit 0 already set),
`set_bit` followed by `clear_bit` changes `v` to `[0]`, so the round trip
does not leave the slice unchanged. -/
theorem set_clear_bit_counterexample :
    bitmap.clear_bit (bitmap.set_bit [1] 0) 0 = [0]
      ∧ bitmap.clear_bit (bitmap.set_bit [1] 0) 0 ≠ [1]
      ∧ 0 < 8 * ([1] : List Nat).length := by
  refine ⟨by decide, by decide, by decide⟩

/-- Claim C9 (amended): for every well-formed byte slice `v` and index
`n < 8·len(v)`, `set_bit(v, n); clear_bit(v, n)` yields `v` with bit `n`
cleared (i.e. `clear_bit(v, n)`); it leaves `v` unchanged exactly when
bit `n` was clear beforehand. -/
theorem set_clear_bit_spec (v : List Nat) (n : Nat)
    (hbytes : ∀ b ∈ v, b < 256) (hn : n < 8 * v.length) :
    bitmap.clear_bit (bitmap.set_bit v n) n = bitmap.clear_bit v n
      ∧ (bitmap.getBit v n = false →
          bitmap.clear_bit (bitmap.set_bit v n) n = v) := by
  refine ⟨clear_set_eq_clear v n, fun hfalse => ?_⟩
  rw [clear_set_eq_clear v n]
  exact clear_bit_eq_self v n hbytes hn hfalse

/-- Claim C9 witness: the amended statement evaluated at `v = [2]`, `n = 0`. -/
theorem set_clear_bit_spec_witness :
    bitmap.clear_bit (bitmap.set_bit [2] 0) 0 = bitmap.clear_bit [2] 0
      ∧ (bitmap.getBit [2] 0 = false →
          bitmap.clear_bit (bitmap.set_bit [2] 0) 0 = [2]) :=
  set_clear_bit_spec [2] 0 (by decide) (by decide)

/-- Claim C2: after a valid native-order greeting, `Connection::new`
accepts every protocol version, including version 1; it never fails with
the unsupported-version error, contradicting the declared
`PROTOCOL_VERSION = 2` check the spec describes. -/
theorem connection_new_ignores_protocol_version :
    (∀ version, connection_new GREETING_NATIVE_BYTE_ORDER version
      = SetupOutcome.proceeds)
    ∧ connection_new GREETING_NATIVE_BYTE_ORDER 1 = SetupOutcome.proceeds
    ∧ (1 : Nat) ≠ PROTOCOL_VERSION := by
  refine ⟨fun version => rfl, rfl, by decide⟩

/-- Claim C1: when the named attribute's descriptor has the read-only mod
bit set, `MedusaAttributes::set` returns the modify-read-only error and
the store (in particular the attribute's data) is exactly what it was
before the call. -/
theorem set_read_only_rejected (s : MedusaAttributes) (name : String)
    (data : List Nat) (a : MedusaAttribute)
    (hfind : s.inner.find? (fun x => x.header.name == name) = some a)
    (hro : a.header.is_read_only = true) :
    s.set name data = (.error (.modifyReadOnlyError name), s) := by
  obtain ⟨l⟩ := s
  simp only [MedusaAttributes.set, MedusaAttributes.mk.injEq, Prod.mk.injEq]
  induction l with
  | nil => simp at hfind
  | cons b rest ih =>
    by_cases hb : (b.header.name == name) = true
    · simp only [List.find?, hb] at hfind
      obtain rfl : b = a := by simpa using hfind
      simp [MedusaAttributes.setInner, hb, hro]
    · have hb' : (b.header.name == name) = false := by
        simpa using hb
      simp only [List.find?, hb'] at hfind
      have hrec := ih hfind
      simp only [MedusaAttributes.setInner, hb', Bool.false_eq_true, if_false]
      refine ⟨hrec.1, ?_⟩
      rw [hrec.2]

/-! #### Store lemmas: how `set` and `modify` act on `find?`. -/

theorem find?_setInner_self (name : String) (data : List Nat)
    (l : List MedusaAttribute) (a : MedusaAttribute)
    (hfind : l.find? (fun x => x.header.name == name) = some a)
    (hro : a.header.is_read_only = false) :
    (MedusaAttributes.setInner name data l).1 = .ok ()
      ∧ (MedusaAttributes.setInner name data l).2.find?
          (fun x => x.header.name == name) = some { a with data := data } := by
  induction l with
  | nil => simp at hfind
  | cons b rest ih =>
    by_cases hb : (b.header.name == name) = true
    · simp only [List.find?, hb] at hfind
      obtain rfl : b = a := by simpa using hfind
      simp [MedusaAttributes.setInner, hb, hro, List.find?]
    · have hb' : (b.header.name == name) = false := by simpa using hb
      simp only [List.find?, hb'] at hfind
      have hrec := ih hfind
      simp only [MedusaAttributes.setInner, hb', Bool.false_eq_true, if_false]
      exact ⟨hrec.1, by simp [List.find?, hb', hrec.2]⟩

theorem find?_setInner_other (name other : String) (data : List Nat)
    (l : List MedusaAttribute) (hne : other ≠ name) :
    (MedusaAttributes.setInner name data l).2.find?
        (fun x => x.header.name == other)
      = l.find? (fun x => x.header.name == other) := by
  induction l with
  | nil => simp [MedusaAttributes.setInner]
  | cons b rest ih =>
    by_cases hb : (b.header.name == name) = true
    · have hbn : b.header.name = name := by simpa using hb
      have hother : (b.header.name == other) = false := by
        rw [hbn]
        simp only [beq_eq_false_iff_ne]
        exact fun h => hne h.symm
      by_cases hro : b.header.is_read_only = true
      · simp [MedusaAttributes.setInner, hb, hro]
      · simp only [Bool.not_eq_true] at hro
        simp [MedusaAttributes.setInner, hb, hro, List.find?, hother]
    · have hb' : (b.header.name == name) = false := by simpa using hb
      simp [MedusaAttributes.setInner, hb', List.find?, ih]

theorem find?_modifyInner_self (name : String) (f : List Nat → List Nat)
    (l : List MedusaAttribute) (a : MedusaAttribute)
    (hfind : l.find? (fun x => x.header.name == name) = some a) :
    (MedusaAttributes.modifyInner name f l).1 = .ok ()
      ∧ (MedusaAttributes.modifyInner name f l).2.find?
          (fun x => x.header.name == name) = some { a with data := f a.data } := by
  induction l with
  | nil => simp at hfind
  | cons b rest ih =>
    by_cases hb : (b.header.name == name) = true
    · simp only [List.find?, hb] at hfind
      obtain rfl : b = a := by simpa using hfind
      simp [MedusaAttributes.modifyInner, hb, List.find?]
    · have hb' : (b.header.name == name) = false := by simpa using hb
      simp only [List.find?, hb'] at hfind
      have hrec := ih hfind
      simp only [MedusaAttributes.modifyInner, hb', Bool.false_eq_true, if_false]
      exact ⟨hrec.1, by simp [List.find?, hb', hrec.2]⟩

theorem find?_modifyInner_other (name other : String) (f : List Nat → List Nat)
    (l : List MedusaAttribute) (hne : other ≠ name) :
    (MedusaAttributes.modifyInner name f l).2.find?
        (fun x => x.header.name == other)
      = l.find? (fun x => x.header.name == other) := by
  induction l with
  | nil => simp [MedusaAttributes.modifyInner]
  | cons b rest ih =>
    by_cases hb : (b.header.name == name) = true
    · have hbn : b.header.name = name := by simpa using hb
      have hother : (b.header.name == other) = false := by
        rw [hbn]
        simp only [beq_eq_false_iff_ne]
        exact fun h => hne h.symm
      simp [MedusaAttributes.modifyInner, hb, List.find?, hother]
    · have hb' : (b.header.name == name) = false := by simpa using hb
      simp [MedusaAttributes.modifyInner, hb', List.find?, ih]

/-- Claim C10: read-only enforcement applies only to `set`: `get_mut`
succeeds on a read-only attribute and hands out its bytes, and the
bit-level helpers built on it (`add_vs`, `clear_vs`, `add_object_act`,
`clear_object_act`, `add_subject_act`) modify the read-only attributes'
bytes without any error. -/
theorem get_mut_read_only_bypass (c : MedusaClass) (n : Nat)
    (av ao as' : MedusaAttribute)
    (hv : c.attributes.inner.find?
      (fun x => x.header.name == MEDUSA_VS_ATTR_NAME) = some av)
    (hvro : av.header.is_read_only = true)
    (hn : n < 8 * av.data.length)
    (ho : c.attributes.inner.find?
      (fun x => x.header.name == MEDUSA_OACT_ATTR_NAME) = some ao)
    (horo : ao.header.is_read_only = true)
    (hs : c.attributes.inner.find?
      (fun x => x.header.name == MEDUSA_SACT_ATTR_NAME) = some as')
    (hsro : as'.header.is_read_only = true) :
    c.attributes.get_mut MEDUSA_VS_ATTR_NAME = .ok av.data
      ∧ (c.add_vs n).1 = .ok ()
      ∧ (c.add_vs n).2.attributes.get MEDUSA_VS_ATTR_NAME
          = some (bitmap.set_bit av.data n)
      ∧ bitmap.getBit ((c.add_vs n).2.attributes.get MEDUSA_VS_ATTR_NAME
          |>.getD []) n = true
      ∧ (c.clear_vs).1 = .ok ()
      ∧ (c.clear_vs).2.attributes.get MEDUSA_VS_ATTR_NAME
          = some (bitmap.clear_all av.data)
      ∧ (c.add_object_act n).1 = .ok ()
      ∧ (c.clear_object_act).1 = .ok ()
      ∧ (c.clear_object_act).2.attributes.get MEDUSA_OACT_ATTR_NAME
          = some (bitmap.clear_all ao.data)
      ∧ (c.add_subject_act n).1 = .ok ()
      ∧ (c.clear_subject_act).2.attributes.get MEDUSA_SACT_ATTR_NAME
          = some (bitmap.clear_all as'.data) := by
  have hgm : c.attributes.get_mut MEDUSA_VS_ATTR_NAME = .ok av.data := by
    simp [MedusaAttributes.get_mut, hv]
  have hvs := find?_modifyInner_self MEDUSA_VS_ATTR_NAME
    (fun vs => bitmap.set_bit vs n) c.attributes.inner av hv
  have hvc := find?_modifyInner_self MEDUSA_VS_ATTR_NAME
    bitmap.clear_all c.attributes.inner av hv
  have hoa := find?_modifyInner_self MEDUSA_OACT_ATTR_NAME
    (fun oact => bitmap.set_bit oact n) c.attributes.inner ao ho
  have hoc := find?_modifyInner_self MEDUSA_OACT_ATTR_NAME
    bitmap.clear_all c.attributes.inner ao ho
  have hsa := find?_modifyInner_self MEDUSA_SACT_ATTR_NAME
    (fun sact => bitmap.set_bit sact n) c.attributes.inner as' hs
  have hsc := find?_modifyInner_self MEDUSA_SACT_ATTR_NAME
    bitmap.clear_all c.attributes.inner as' hs
  refine ⟨hgm, ?_, ?_, ?_, ?_, ?_, ?_, ?_, ?_, ?_, ?_⟩
  · simpa [MedusaClass.add_vs, MedusaAttributes.modify] using hvs.1
  · simp [MedusaClass.add_vs, MedusaAttributes.modify, MedusaAttributes.get,
      hvs.2]
  · simp only [MedusaClass.add_vs, MedusaAttributes.modify,
      MedusaAttributes.get, hvs.2]
    simp [getBit_set_bit av.data n n hn hn]
  · simpa [MedusaClass.clear_vs, MedusaAttributes.modify] using hvc.1
  · simp [MedusaClass.clear_vs, MedusaAttributes.modify, MedusaAttributes.get,
      hvc.2]
  · simpa [MedusaClass.add_object_act, MedusaAttributes.modify] using hoa.1
  · simpa [MedusaClass.clear_object_act, MedusaAttributes.modify] using hoc.1
  · simp [MedusaClass.clear_object_act, MedusaAttributes.modify,
      MedusaAttributes.get, hoc.2]
  · simpa [MedusaClass.add_subject_act, MedusaAttributes.modify] using hsa.1
  · simp [MedusaClass.clear_subject_act, MedusaAttributes.modify,
      MedusaAttributes.get, hsc.2]

/-- Claim C10 witness: a class whose `vs`, `med_oact` and `med_sact`
attributes are all read-only; `add_vs 0` still flips bit 0. -/
theorem get_mut_read_only_bypass_witness :
    (MedusaClass.mk ⟨1, 3, "proc"⟩ (MedusaAttributes.mk
        [⟨⟨0, 1, 0x80, .native, .bitmapType, "vs"⟩, [0]⟩,
         ⟨⟨1, 1, 0x80, .native, .bitmapType, "med_oact"⟩, [3]⟩,
         ⟨⟨2, 1, 0x80, .native, .bitmapType, "med_sact"⟩, [7]⟩])).attributes.get_mut
        MEDUSA_VS_ATTR_NAME = .ok [0]
      ∧ ((MedusaClass.mk ⟨1, 3, "proc"⟩ (MedusaAttributes.mk
        [⟨⟨0, 1, 0x80, .native, .bitmapType, "vs"⟩, [0]⟩,
         ⟨⟨1, 1, 0x80, .native, .bitmapType, "med_oact"⟩, [3]⟩,
         ⟨⟨2, 1, 0x80, .native, .bitmapType, "med_sact"⟩, [7]⟩])).add_vs 0).1
        = .ok () := by
  have h := get_mut_read_only_bypass
    (MedusaClass.mk ⟨1, 3, "proc"⟩ (MedusaAttributes.mk
      [⟨⟨0, 1, 0x80, .native, .bitmapType, "vs"⟩, [0]⟩,
       ⟨⟨1, 1, 0x80, .native, .bitmapType, "med_oact"⟩, [3]⟩,
       ⟨⟨2, 1, 0x80, .native, .bitmapType, "med_sact"⟩, [7]⟩])) 0
    ⟨⟨0, 1, 0x80, .native, .bitmapType, "vs"⟩, [0]⟩
    ⟨⟨1, 1, 0x80, .native, .bitmapType, "med_oact"⟩, [3]⟩
    ⟨⟨2, 1, 0x80, .native, .bitmapType, "med_sact"⟩, [7]⟩
    (by decide) (by decide) (by decide) (by decide) (by decide)
    (by decide) (by decide)
  exact ⟨h.1, h.2.1⟩

/-! #### Registry lemmas. -/

theorem lookupAssoc_insertAssoc {α : Type} (m : List (Nat × α)) (key : Nat)
    (v : α) : lookupAssoc (insertAssoc key v m) key = some v := by
  induction m with
  | nil => simp [insertAssoc, lookupAssoc]
  | cons p rest ih =>
    by_cases hp : p.1 = key
    · simp [insertAssoc, hp, lookupAssoc]
    · simp only [insertAssoc, hp, if_false]
      simp only [lookupAssoc, List.find?] at ih ⊢
      have hpb : (p.1 == key) = false := by simpa using hp
      simp [hpb, ih]

/-- Claim C7: when an event-type definition is processed with the subject
class id equal to the object class id and the two per-side attribute
names identical, the event type stored in the registry has its object
side absent (`ev_obj = 0`). -/
theorem register_kevtype_collapses_object (classes : List (Nat × MedusaClass))
    (evtypes : List (Nat × MedusaCommEvtype)) (kevtype : MedusaCommEvtype)
    (cs co : MedusaClass)
    (hsub : lookupAssoc classes kevtype.ev_sub = some cs)
    (hobj : lookupAssoc classes kevtype.ev_obj = some co)
    (heq : kevtype.ev_sub = kevtype.ev_obj)
    (hname : kevtype.ev_name.1 = kevtype.ev_name.2) :
    ∃ m, register_kevtype_def classes evtypes kevtype = some m
      ∧ ∃ k, lookupAssoc m kevtype.evid = some k
        ∧ k.ev_obj = 0 ∧ k.evid = kevtype.evid := by
  refine ⟨insertAssoc kevtype.evid
    { kevtype with
      ev_obj := 0
      ev_name := (kevtype.ev_name.1,
        List.replicate MEDUSA_COMM_ATTRNAME_MAX 0) } evtypes, ?_, ?_⟩
  · simp [register_kevtype_def, hsub, hobj, heq, hname]
  · refine ⟨_, lookupAssoc_insertAssoc _ _ _, rfl, rfl⟩

/-- Claim C7 witness: a self-referential event type (`ev_sub = ev_obj`,
equal per-side names) on a one-class registry. -/
theorem register_kevtype_collapses_object_witness :
    ∃ m, register_kevtype_def
        [(0x10, ⟨⟨0x10, 8, "file"⟩, MedusaAttributes.mk []⟩)] []
        ⟨0x7, 8, 0x8000, 0x10, 0x10, [102], ([110], [110])⟩ = some m
      ∧ ∃ k, lookupAssoc m 0x7 = some k ∧ k.ev_obj = 0 ∧ k.evid = 0x7 :=
  register_kevtype_collapses_object
    [(0x10, ⟨⟨0x10, 8, "file"⟩, MedusaAttributes.mk []⟩)] []
    ⟨0x7, 8, 0x8000, 0x10, 0x10, [102], ([110], [110])⟩
    ⟨⟨0x10, 8, "file"⟩, MedusaAttributes.mk []⟩
    ⟨⟨0x10, 8, "file"⟩, MedusaAttributes.mk []⟩
    (by decide) (by decide) (by decide) (by decide)

/-! #### Lemmas for class registration. -/

theorem mem_pushInner (x a : MedusaAttribute) (l : List MedusaAttribute) :
    a ∈ MedusaAttributes.pushInner x l → a = x ∨ a ∈ l := by
  induction l with
  | nil =>
    intro h
    simpa [MedusaAttributes.pushInner] using h
  | cons b rest ih =>
    intro h
    by_cases hb : (b.header.name == x.header.name) = true
    · simp only [MedusaAttributes.pushInner, hb, if_true, List.mem_cons] at h
      rcases h with h | h
      · exact Or.inl h
      · exact Or.inr (List.mem_cons_of_mem _ h)
    · have hb' : (b.header.name == x.header.name) = false := by simpa using hb
      simp only [MedusaAttributes.pushInner, hb', Bool.false_eq_true,
        if_false, List.mem_cons] at h
      rcases h with h | h
      · exact Or.inr (by simp [h])
      · rcases ih h with h | h
        · exact Or.inl h
        · exact Or.inr (List.mem_cons_of_mem _ h)

theorem foldl_push_data_empty (l : List MedusaAttribute)
    (s : MedusaAttributes) (hl : ∀ x ∈ l, x.data = [])
    (hs : ∀ a ∈ s.inner, a.data = []) :
    ∀ a ∈ (l.foldl (fun s a => s.push a) s).inner, a.data = [] := by
  induction l generalizing s with
  | nil => simpa using hs
  | cons x rest ih =>
    simp only [List.foldl_cons]
    refine ih _ (fun y hy => hl y (List.mem_cons_of_mem _ hy)) ?_
    intro a ha
    rcases mem_pushInner x a s.inner ha with h | h
    · rw [h]
      exact hl x (List.mem_cons_self x rest)
    · exact hs a h

/-- Claim C8 (amended): looking up a class registered from a
class-definition command yields an instance with the registered header in
which every attribute's stored data is the empty buffer (`Vec::new()`);
the descriptor's length field, not the data, records the packed length,
and `pack` zero-fills to it. -/
theorem registered_class_attr_data_empty (classes : List (Nat × MedusaClass))
    (header : MedusaClassHeader) (attr_headers : List MedusaAttributeHeader) :
    ∃ c, empty_class_from_id (register_class classes header attr_headers)
        header.id = some c
      ∧ c.header = header
      ∧ ∀ a ∈ c.attributes.inner, a.data = [] := by
  refine ⟨_, lookupAssoc_insertAssoc _ _ _, rfl, ?_⟩
  refine foldl_push_data_empty _ _ ?_ (by simp)
  intro x hx
  simp only [read_attributes, List.mem_map] at hx
  obtain ⟨h, _, rfl⟩ := hx
  rfl

/-- Claim C8 counterexample: registering class `0x10` (`"printk"`) with
one attribute `"message"` of declared length 16 stores the empty buffer
as its data, not a zero-filled buffer of length 16. -/
theorem empty_class_data_counterexample :
    ((empty_class_from_id (register_class []
        ⟨0x10, 16, "printk"⟩
        [⟨0, 16, 0, .native, .string, "message"⟩,
          ⟨0, 0, 0, .native, .endMarker, ""⟩]) 0x10).bind
      fun c => c.attributes.get "message") = some []
    ∧ ([] : List Nat) ≠ List.replicate 16 0 := by
  exact ⟨by decide, by decide⟩

/-! #### Lemmas for space bitmaps. -/

theorem length_set_all (v : List Nat) : (bitmap.set_all v).length = v.length := by
  simp [bitmap.set_all]

theorem getBit_set_all (v : List Nat) (n : Nat) (hn : n < 8 * v.length) :
    bitmap.getBit (bitmap.set_all v) n = true := by
  have h8 : n / 8 < v.length := Nat.div_lt_of_lt_mul (by omega)
  have hd : (bitmap.set_all v).getD (n / 8) 0 = 255 := by
    simp [bitmap.set_all, List.getD_eq_getElem?_getD, List.getElem?_replicate,
      List.getElem?_map, List.getElem?_eq_getElem h8, h8]
  rw [bitmap.getBit, hd]
  have h255 : (255 : Nat) = 2 ^ 8 - 1 := by norm_num
  rw [h255, Nat.testBit_two_pow_sub_one]
  simp [Nat.mod_lt n (show 0 < 8 by norm_num)]

theorem getBit_replicate_zero (k n : Nat) :
    bitmap.getBit (List.replicate k 0) n = false := by
  rw [bitmap.getBit]
  have hd : (List.replicate k 0).getD (n / 8) 0 = 0 := by
    by_cases h : n / 8 < k
    · simp [List.getD_eq_getElem?_getD, List.getElem?_replicate, h]
    · have hle : (List.replicate k (0 : Nat)).length ≤ n / 8 := by
        simpa using Nat.le_of_not_lt h
      simp [List.getD_eq_getElem?_getD, List.getElem?_eq_none hle]
  simp [hd]

theorem spaces_to_bitmap_go_spec (d : SpaceDef) (S : List Space) :
    ∀ v : List Nat,
    (∀ name, Space.byName name ∈ S → name ≠ "" →
      ∃ i, d.lookup name = some i ∧ i < 8 * v.length) →
    ∃ w, spaces_to_bitmap_go d S v = some w ∧ w.length = v.length
      ∧ ∀ n, n < 8 * v.length → bitmap.getBit w n
          = (bitmap.getBit v n || S.contains Space.all || mentions_id d S n) := by
  induction S with
  | nil =>
    intro v _
    exact ⟨v, rfl, rfl, fun n _ => by simp [mentions_id]⟩
  | cons sp rest ih =>
    intro v hdef
    cases sp with
    | all =>
      obtain ⟨w, hgo, hlen, hbit⟩ := ih (bitmap.set_all v)
        (fun name hmem hne => by
          obtain ⟨i, hi, hilt⟩ := hdef name (List.mem_cons_of_mem _ hmem) hne
          exact ⟨i, hi, by simpa [length_set_all] using hilt⟩)
      refine ⟨w, by simpa [spaces_to_bitmap_go] using hgo,
        by simpa [length_set_all] using hlen, fun n hn => ?_⟩
      have hn' : n < 8 * (bitmap.set_all v).length := by
        simpa [length_set_all] using hn
      rw [hbit n hn', getBit_set_all v n hn]
      simp [List.contains_cons]
    | byName name =>
      by_cases hname : name = ""
      · subst hname
        obtain ⟨w, hgo, hlen, hbit⟩ := ih v
          (fun nm hmem hne => hdef nm (List.mem_cons_of_mem _ hmem) hne)
        refine ⟨w, by simpa [spaces_to_bitmap_go] using hgo, hlen,
          fun n hn => ?_⟩
        rw [hbit n hn]
        simp [mentions_id, List.contains_cons]
      · obtain ⟨i, hlook, hilt⟩ :=
          hdef name (List.mem_cons_self _ _) hname
        obtain ⟨w, hgo, hlen, hbit⟩ := ih (bitmap.set_bit v i)
          (fun nm hmem hne => by
            obtain ⟨j, hj, hjlt⟩ := hdef nm (List.mem_cons_of_mem _ hmem) hne
            exact ⟨j, hj, by simpa [length_set_bit] using hjlt⟩)
        refine ⟨w, ?_, by simpa [length_set_bit] using hlen, fun n hn => ?_⟩
        · simpa [spaces_to_bitmap_go, hname, hlook] using hgo
        · have hn' : n < 8 * (bitmap.set_bit v i).length := by
            simpa [length_set_bit] using hn
          rw [hbit n hn', getBit_set_bit v i n hilt hn]
          have hsome : (d.lookup name == some n) = (n == i) := by
            rw [hlook]
            by_cases hni : n = i
            · subst hni
              simp
            · have h1 : (some i == some n) = false := by
                simp only [beq_eq_false_iff_ne, ne_eq, Option.some.injEq]
                exact fun hc => hni hc.symm
              have h2 : (n == i) = false := by simpa using hni
              rw [h1, h2]
          have hnm : (!(name == "")) = true := by simpa using hname
          have hba : (Space.all == Space.byName name) = false := by
            simp only [beq_eq_false_iff_ne, ne_eq]
            exact fun hc => Space.noConfusion hc
          simp only [mentions_id, List.any_cons, List.contains_cons, hsome,
            hnm, Bool.true_and]
          cases hgb : bitmap.getBit v n <;> cases hni : (n == i) <;>
            simp [hba]

/-- Claim C6: `spaces_to_bitmap(S, def)` returns a byte vector of length
`ceil(id_count / 8)` (here `bitmap_nbytes = (id_cn + 7) / 8`) in which
exactly the bits `{id(name) : ByName(name) ∈ S, name ≠ ""}` are set,
except that if `All ∈ S` every bit of the vector is set. Names mentioned
in `S` must be defined (otherwise the code panics), and defined ids lie
below `id_cn`. -/
theorem spaces_to_bitmap_spec (d : SpaceDef) (S : List Space)
    (hdef : ∀ name, Space.byName name ∈ S → name ≠ "" →
      ∃ i, d.lookup name = some i ∧ i < d.id_cn) :
    ∃ v, spaces_to_bitmap S d = some v
      ∧ v.length = d.bitmap_nbytes
      ∧ ∀ n, n < 8 * v.length → bitmap.getBit v n
          = (S.contains Space.all || mentions_id d S n) := by
  have hrep : (List.replicate d.bitmap_nbytes (0 : Nat)).length
      = d.bitmap_nbytes := by simp
  obtain ⟨w, hgo, hlen, hbit⟩ := spaces_to_bitmap_go_spec d S
    (List.replicate d.bitmap_nbytes 0)
    (fun name hmem hne => by
      obtain ⟨i, hi, hilt⟩ := hdef name hmem hne
      refine ⟨i, hi, ?_⟩
      rw [hrep]
      have : d.id_cn ≤ 8 * d.bitmap_nbytes := by
        rw [SpaceDef.bitmap_nbytes]
        omega
      omega)
  refine ⟨w, hgo, by rw [hlen, hrep], fun n hn => ?_⟩
  have hn' : n < 8 * (List.replicate d.bitmap_nbytes (0 : Nat)).length := by
    rw [hrep]
    rw [hlen, hrep] at hn
    exact hn
  rw [hbit n hn', getBit_replicate_zero]
  simp

/-- Claim C6 witness: two defined spaces, `S = [ByName "a"]` sets exactly
bit 0 of the one-byte vector. -/
theorem spaces_to_bitmap_spec_witness :
    ∃ v, spaces_to_bitmap [Space.byName "a"] ⟨2, [("a", 0), ("b", 1)]⟩ = some v
      ∧ v.length = SpaceDef.bitmap_nbytes ⟨2, [("a", 0), ("b", 1)]⟩
      ∧ ∀ n, n < 8 * v.length → bitmap.getBit v n
          = ([Space.byName "a"].contains Space.all
            || mentions_id ⟨2, [("a", 0), ("b", 1)]⟩ [Space.byName "a"] n) :=
  spaces_to_bitmap_spec ⟨2, [("a", 0), ("b", 1)]⟩ [Space.byName "a"]
    (fun name hmem _ => by
      simp only [List.mem_singleton, Space.byName.injEq] at hmem
      subst hmem
      exact ⟨0, by decide, by decide⟩)

/-! #### Lemmas for handler applicability. -/

theorem getD_mem (v : List Nat) (j : Nat) (h : j < v.length) :
    v.getD j 0 ∈ v := by
  rw [List.getD_eq_getElem?_getD, List.getElem?_eq_getElem h]
  exact List.getElem_mem h

theorem bits_subset_iff (mask w : List Nat) :
    bits_subset mask w = true ↔
      ∀ i, i < 8 * mask.length →
        bitmap.getBit mask i = true → bitmap.getBit w i = true := by
  rw [bits_subset, List.all_eq_true]
  constructor
  · intro h i hi hbit
    have hh := h i (List.mem_range.mpr hi)
    rw [hbit] at hh
    simpa using hh
  · intro h i hi
    rw [List.mem_range] at hi
    cases hbit : bitmap.getBit mask i
    · simp
    · simp [h i hi hbit]

theorem and_getD (mask w : List Nat) (j : Nat) :
    (bitmap.and mask w).getD j 0 = mask.getD j 0 &&& w.getD j 0 := by
  induction mask generalizing w j with
  | nil => simp [bitmap.and]
  | cons m ms ih =>
    cases w with
    | nil => simp [bitmap.and]
    | cons b bs =>
      cases j with
      | zero => simp [bitmap.and]
      | succ j =>
        simp only [bitmap.and, List.zipWith_cons_cons, List.getD_cons_succ]
        exact ih bs j

theorem list_eq_iff_getD (l₁ l₂ : List Nat) (hlen : l₁.length = l₂.length) :
    l₁ = l₂ ↔ ∀ j, j < l₂.length → l₁.getD j 0 = l₂.getD j 0 := by
  constructor
  · intro h j _
    rw [h]
  · intro h
    induction l₁ generalizing l₂ with
    | nil =>
      cases l₂ with
      | nil => rfl
      | cons y ys => simp at hlen
    | cons x xs ih =>
      cases l₂ with
      | nil => simp at hlen
      | cons y ys =>
        have h0 : x = y := by simpa using h 0 (by simp)
        have ht : xs = ys := by
          refine ih ys (by simpa using hlen) ?_
          intro j hj
          simpa using h (j + 1) (by simpa using Nat.succ_lt_succ hj)
        rw [h0, ht]

theorem and_eq_iff_subset (mask w : List Nat) (hlen : w.length = mask.length)
    (hbytes : ∀ b ∈ mask, b < 256) :
    (bitmap.and mask w = mask) ↔ bits_subset mask w = true := by
  rw [bits_subset_iff]
  have hzl : (bitmap.and mask w).length = mask.length := by
    simp [bitmap.and, hlen]
  rw [list_eq_iff_getD _ _ hzl]
  constructor
  · intro h i hi hbit
    have h8 : i / 8 < mask.length := Nat.div_lt_of_lt_mul (by omega)
    have hb := h (i / 8) h8
    rw [and_getD mask w] at hb
    have hbb := congrArg (fun b => b.testBit (i % 8)) hb
    simp only [Nat.testBit_land] at hbb
    have hm : (mask.getD (i / 8) 0).testBit (i % 8) = true := hbit
    rw [hm, Bool.true_and] at hbb
    exact hbb
  · intro h j hj
    rw [and_getD mask w]
    have hb : mask.getD j 0 < 256 := hbytes _ (getD_mem mask j hj)
    apply Nat.eq_of_testBit_eq
    intro k
    rw [Nat.testBit_land]
    by_cases hk8 : k < 8
    · cases hm : (mask.getD j 0).testBit k
      · simp
      · have hdiv : (8 * j + k) / 8 = j := by omega
        have hmod : (8 * j + k) % 8 = k := by omega
        have hget : bitmap.getBit mask (8 * j + k) = true := by
          rw [bitmap.getBit, hdiv, hmod]
          exact hm
        have hwk := h (8 * j + k) (by omega) hget
        rw [bitmap.getBit, hdiv, hmod] at hwk
        rw [hwk]
        simp
    · have hhi : (mask.getD j 0).testBit k = false := by
        apply Nat.testBit_lt_two_pow
        calc mask.getD j 0 < 256 := hb
        _ = 2 ^ 8 := by norm_num
        _ ≤ 2 ^ k := Nat.pow_le_pow_right (by norm_num) (by omega)
      rw [hhi]
      simp

theorem is_applicable_object_check_spec (h : HandlerData)
    (o : Option MedusaClass)
    (hobjl : h.object_vs.length = h.bitmap_nbytes)
    (hobjb : ∀ b ∈ h.object_vs, b < 256)
    (hov : ∀ oc, o = some oc →
      ∃ ovs, oc.get_vs = some ovs ∧ h.bitmap_nbytes ≤ ovs.length) :
    is_applicable_object_check h o
      = some (match o with
        | none => true
        | some oc => bitmap.all h.object_vs
            || bits_subset h.object_vs
              ((oc.get_vs.getD []).take h.bitmap_nbytes)) := by
  cases hall : bitmap.all h.object_vs
  · cases o with
    | none => simp [is_applicable_object_check, hall]
    | some oc =>
      obtain ⟨ovs, hovs, hlen⟩ := hov oc rfl
      have hnl : ¬ ovs.length < h.bitmap_nbytes := by omega
      have htl : (ovs.take h.bitmap_nbytes).length = h.object_vs.length := by
        rw [hobjl]
        simp [Nat.min_eq_left hlen]
      rw [is_applicable_object_check, hall]
      simp only [Bool.not_false, if_true, hovs, hnl, if_false]
      by_cases hsub : bits_subset h.object_vs (ovs.take h.bitmap_nbytes) = true
      · have hand : bitmap.and h.object_vs (ovs.take h.bitmap_nbytes)
            = h.object_vs := (and_eq_iff_subset _ _ htl hobjb).mpr hsub
        simp [hand, hovs, hall, hsub]
      · have hand : ¬ bitmap.and h.object_vs (ovs.take h.bitmap_nbytes)
            = h.object_vs :=
          fun hc => hsub ((and_eq_iff_subset _ _ htl hobjb).mp hc)
        have hsub' : bits_subset h.object_vs (ovs.take h.bitmap_nbytes)
            = false := by
          simpa using hsub
        simp [hand, hovs, hall, hsub']
  · cases o with
    | none => simp [is_applicable_object_check, hall]
    | some oc => simp [is_applicable_object_check, hall]

/-- Claim C3 (amended): `is_applicable(h, s, o)` returns true iff (the
subject mask is all-ones, or every bit set in it is set in `s`'s `vs`
attribute compared over the mask's byte length) and, when `o` is present
and the object mask is not all-ones, every bit set in the object mask is
set in `o`'s `vs` attribute. -/
theorem is_applicable_spec (h : HandlerData) (s : MedusaClass)
    (o : Option MedusaClass) (svs : List Nat)
    (hs : s.get_vs = some svs)
    (hslen : h.bitmap_nbytes ≤ svs.length)
    (hsubl : h.subject_vs.length = h.bitmap_nbytes)
    (hsubb : ∀ b ∈ h.subject_vs, b < 256)
    (hobjl : h.object_vs.length = h.bitmap_nbytes)
    (hobjb : ∀ b ∈ h.object_vs, b < 256)
    (hov : ∀ oc, o = some oc →
      ∃ ovs, oc.get_vs = some ovs ∧ h.bitmap_nbytes ≤ ovs.length) :
    is_applicable h s o
      = some ((bitmap.all h.subject_vs
          || bits_subset h.subject_vs (svs.take h.bitmap_nbytes))
        && (match o with
          | none => true
          | some oc => bitmap.all h.object_vs
              || bits_subset h.object_vs
                ((oc.get_vs.getD []).take h.bitmap_nbytes))) := by
  have hobj := is_applicable_object_check_spec h o hobjl hobjb hov
  cases hall : bitmap.all h.subject_vs
  · have hnl : ¬ svs.length < h.bitmap_nbytes := by omega
    have htl : (svs.take h.bitmap_nbytes).length = h.subject_vs.length := by
      rw [hsubl]
      simp [Nat.min_eq_left hslen]
    rw [is_applicable, hall]
    simp only [Bool.not_false, if_true, hs, hnl, if_false]
    by_cases hsub : bits_subset h.subject_vs (svs.take h.bitmap_nbytes) = true
    · have hand : bitmap.and h.subject_vs (svs.take h.bitmap_nbytes)
          = h.subject_vs := (and_eq_iff_subset _ _ htl hsubb).mpr hsub
      simp [hand, hsub, hobj]
    · have hand : ¬ bitmap.and h.subject_vs (svs.take h.bitmap_nbytes)
          = h.subject_vs :=
        fun hc => hsub ((and_eq_iff_subset _ _ htl hsubb).mp hc)
      have hsub' : bits_subset h.subject_vs (svs.take h.bitmap_nbytes)
          = false := by simpa using hsub
      simp [hand, hsub']
  · rw [is_applicable, hall]
    simp [hobj]

/-- Claim C3 witness: a one-byte subject mask `[1]` against a subject
whose `vs` is `[3]`, no object. -/
theorem is_applicable_spec_witness :
    is_applicable ⟨"getfile", none, false, "fs", [1], [255], 1⟩
        ⟨⟨1, 2, "file"⟩, MedusaAttributes.mk
          [⟨⟨0, 1, 0, .native, .bitmapType, "vs"⟩, [3]⟩]⟩ none
      = some ((bitmap.all [1] || bits_subset [1] (([3] : List Nat).take 1))
        && true) :=
  is_applicable_spec ⟨"getfile", none, false, "fs", [1], [255], 1⟩
    ⟨⟨1, 2, "file"⟩, MedusaAttributes.mk
      [⟨⟨0, 1, 0, .native, .bitmapType, "vs"⟩, [3]⟩]⟩ none [3]
    (by decide) (by decide) (by decide) (by decide) (by decide) (by decide)
    (fun oc hc => Option.noConfusion hc)

/-- Claim C3 counterexample: with an all-ones subject mask `[0xff]` the
subject check is skipped entirely, so `is_applicable` returns true for a
subject whose `vs` is all zeroes even though not every bit set in the
mask is set in the subject's `vs`. -/
theorem is_applicable_allones_counterexample :
    is_applicable ⟨"getfile", none, false, "fs", [255], [255], 1⟩
        ⟨⟨1, 2, "file"⟩, MedusaAttributes.mk
          [⟨⟨0, 1, 0, .native, .bitmapType, "vs"⟩, [0]⟩]⟩ none
      = some true
    ∧ bits_subset [255] (([0] : List Nat).take 1) = false
    ∧ bitmap.getBit [255] 0 = true
    ∧ bitmap.getBit [0] 0 = false := by
  exact ⟨by decide, by decide, by decide, by decide⟩

/-! #### Lemmas for the pack round trip. -/

theorem writeAt_length (bytes : List Nat) : ∀ (res : List Nat) (off : Nat),
    (MedusaAttributes.writeAt res off bytes).length = res.length := by
  induction bytes with
  | nil =>
    intro res off
    rfl
  | cons b bs ih =>
    intro res off
    rw [MedusaAttributes.writeAt, ih]
    simp

theorem writeAt_getD_outside (bytes : List Nat) :
    ∀ (res : List Nat) (off j : Nat),
    (j < off ∨ off + bytes.length ≤ j) →
    (MedusaAttributes.writeAt res off bytes).getD j 0 = res.getD j 0 := by
  induction bytes with
  | nil =>
    intro res off j _
    rfl
  | cons b bs ih =>
    intro res off j hj
    simp only [List.length_cons] at hj
    rw [MedusaAttributes.writeAt, ih (res.set off b) (off + 1) j (by omega),
      getD_set_ne _ _ _ _ (by omega)]

theorem writeAt_getD_inside (bytes : List Nat) :
    ∀ (res : List Nat) (off j : Nat),
    off + bytes.length ≤ res.length →
    off ≤ j → j < off + bytes.length →
    (MedusaAttributes.writeAt res off bytes).getD j 0
      = bytes.getD (j - off) 0 := by
  induction bytes with
  | nil =>
    intro res off j _ h1 h2
    simp only [List.length_nil, Nat.add_zero] at h2
    omega
  | cons b bs ih =>
    intro res off j hbound h1 h2
    simp only [List.length_cons] at hbound h2
    rw [MedusaAttributes.writeAt]
    by_cases hj : j = off
    · subst hj
      rw [writeAt_getD_outside bs _ _ _ (Or.inl (by omega)),
        getD_set_self _ _ _ (by omega)]
      simp
    · rw [ih (res.set off b) (off + 1) j
        (by rw [List.length_set]; omega) (by omega) (by omega)]
      have hsub : j - off = (j - (off + 1)) + 1 := by omega
      rw [hsub]
      simp

theorem pack_data_length (a : MedusaAttribute) :
    a.pack_data.length = attrLen a := by
  rw [MedusaAttribute.pack_data, attrLen]
  simp

theorem pack_data_eq_self (a : MedusaAttribute)
    (hlen : a.data.length = attrLen a) : a.pack_data = a.data := by
  rw [MedusaAttribute.pack_data, attrLen] at *
  rw [← hlen, List.take_left]

theorem pack_cons (x : MedusaAttribute) (l : List MedusaAttribute)
    (res : List Nat) :
    (MedusaAttributes.mk (x :: l)).pack res
      = (MedusaAttributes.mk l).pack
        (MedusaAttributes.writeAt res (attrOff x) x.pack_data) := by
  rfl

theorem pack_length (l : List MedusaAttribute) : ∀ res : List Nat,
    ((MedusaAttributes.mk l).pack res).length = res.length := by
  induction l with
  | nil =>
    intro res
    rfl
  | cons x xs ih =>
    intro res
    rw [pack_cons, ih, writeAt_length]

theorem pack_getD_untouched (l : List MedusaAttribute) :
    ∀ (res : List Nat) (j : Nat),
    (∀ a ∈ l, j < attrOff a ∨ attrOff a + attrLen a ≤ j) →
    ((MedusaAttributes.mk l).pack res).getD j 0 = res.getD j 0 := by
  induction l with
  | nil =>
    intro res j _
    rfl
  | cons x xs ih =>
    intro res j hout
    rw [pack_cons, ih _ j (fun a ha => hout a (List.mem_cons_of_mem _ ha)),
      writeAt_getD_outside]
    rw [pack_data_length]
    exact hout x (List.mem_cons_self _ _)

theorem pack_getD_inside (l : List MedusaAttribute) :
    ∀ (res : List Nat) (a : MedusaAttribute) (j : Nat),
    a ∈ l →
    l.Pairwise rangesDisjoint →
    (∀ b ∈ l, attrOff b + attrLen b ≤ res.length) →
    attrOff a ≤ j → j < attrOff a + attrLen a →
    ((MedusaAttributes.mk l).pack res).getD j 0
      = a.pack_data.getD (j - attrOff a) 0 := by
  induction l with
  | nil =>
    intro res a j ha
    simp at ha
  | cons x xs ih =>
    intro res a j ha hdisj hbound h1 h2
    rw [List.pairwise_cons] at hdisj
    rcases List.mem_cons.mp ha with rfl | ha
    · rw [pack_cons, pack_getD_untouched, writeAt_getD_inside]
      · rw [pack_data_length]
        exact hbound a (List.mem_cons_self _ _)
      · exact h1
      · rw [pack_data_length]
        exact h2
      · intro b hb
        rcases hdisj.1 b hb with hd | hd
        · left
          omega
        · right
          omega
    · rw [pack_cons, ih _ a j ha hdisj.2
        (fun b hb => by
          rw [writeAt_length]
          exact hbound b (List.mem_cons_of_mem _ hb)) h1 h2]

/-- Claim C5 (amended): for any class whose attribute descriptors lie
within the packed size and occupy pairwise disjoint byte ranges, and any
stored values whose lengths equal their descriptors' lengths, `pack`-ing
into a zeroed buffer of the packed size and re-reading it via
`set_from_raw` leaves every attribute's stored data unchanged. -/
theorem pack_roundtrip (s : MedusaAttributes) (size : Nat)
    (hbound : ∀ a ∈ s.inner, attrOff a + attrLen a ≤ size)
    (hlen : ∀ a ∈ s.inner, a.data.length = attrLen a)
    (hdisj : s.inner.Pairwise rangesDisjoint) :
    s.set_from_raw (s.pack (List.replicate size 0)) = s := by
  obtain ⟨l⟩ := s
  rw [MedusaAttributes.set_from_raw, MedusaAttributes.mk.injEq]
  have hbuflen : ((MedusaAttributes.mk l).pack
      (List.replicate size 0)).length = size := by
    rw [pack_length]
    simp
  have hmain : ∀ a ∈ l,
      ((((MedusaAttributes.mk l).pack (List.replicate size 0)).drop
        (i16_as_usize a.header.offset)).take (i16_as_usize a.header.length))
        = a.data := by
    intro a ha
    have hoff : attrOff a + attrLen a ≤ size := hbound a ha
    have hdl : a.data.length = attrLen a := hlen a ha
    apply (list_eq_iff_getD _ _ ?_).mpr
    · intro j hj
      rw [hdl, attrLen] at hj
      have hslice : ((((MedusaAttributes.mk l).pack
          (List.replicate size 0)).drop (i16_as_usize a.header.offset)).take
            (i16_as_usize a.header.length)).getD j 0
          = ((MedusaAttributes.mk l).pack (List.replicate size 0)).getD
            (i16_as_usize a.header.offset + j) 0 := by
        rw [List.getD_eq_getElem?_getD, List.getElem?_take_of_lt hj,
          List.getElem?_drop, List.getD_eq_getElem?_getD]
      rw [hslice, pack_getD_inside l _ a _ ha hdisj
        (fun b hb => by
          rw [List.length_replicate]
          exact hbound b hb)
        (by rw [attrOff]; omega)
        (by rw [attrOff, attrLen]; omega)]
      rw [pack_data_eq_self a hdl]
      congr 1
      rw [attrOff]
      omega
    · rw [List.length_take, List.length_drop, hbuflen, hdl, attrLen,
        attrOff] at *
      omega
  have : ∀ a ∈ l, (fun a => { a with
      data := ((((MedusaAttributes.mk l).pack (List.replicate size 0)).drop
        (i16_as_usize a.header.offset)).take
          (i16_as_usize a.header.length)) } : MedusaAttribute → MedusaAttribute)
        a = a := by
    intro a ha
    have hd := hmain a ha
    cases a with
    | mk hdr dat =>
      simp only [MedusaAttribute.mk.injEq]
      exact ⟨trivial, hd⟩
  rw [List.map_congr_left this]
  exact List.map_id' l

/-- Claim C5 witness: two disjoint attributes at offsets 0 and 2 of a
4-byte packed buffer survive the round trip. -/
theorem pack_roundtrip_witness :
    (MedusaAttributes.mk
        [⟨⟨0, 2, 0, .native, .bytes, "a"⟩, [1, 2]⟩,
          ⟨⟨2, 1, 0, .native, .bytes, "b"⟩, [3]⟩]).set_from_raw
      ((MedusaAttributes.mk
        [⟨⟨0, 2, 0, .native, .bytes, "a"⟩, [1, 2]⟩,
          ⟨⟨2, 1, 0, .native, .bytes, "b"⟩, [3]⟩]).pack (List.replicate 4 0))
      = MedusaAttributes.mk
        [⟨⟨0, 2, 0, .native, .bytes, "a"⟩, [1, 2]⟩,
          ⟨⟨2, 1, 0, .native, .bytes, "b"⟩, [3]⟩] :=
  pack_roundtrip
    (MedusaAttributes.mk
      [⟨⟨0, 2, 0, .native, .bytes, "a"⟩, [1, 2]⟩,
        ⟨⟨2, 1, 0, .native, .bytes, "b"⟩, [3]⟩]) 4
    (by decide) (by decide) (by decide)

/-- Claim C5 counterexample: two attributes with overlapping descriptors
(both at offset 0, length 1). Writing `[1]` then `[2]` via `set`,
packing into the 1-byte buffer and re-reading with `set_from_raw` leaves
attribute `"a"` holding `[2]`, not the originally written `[1]`, although
both written values match their descriptors' lengths. -/
theorem pack_roundtrip_counterexample :
    ((((MedusaAttributes.mk
        [⟨⟨0, 1, 0, .native, .bytes, "a"⟩, []⟩,
          ⟨⟨0, 1, 0, .native, .bytes, "b"⟩, []⟩]).set "a" [1]).2.set
            "b" [2]).2.get "a" = some [1])
    ∧ (((((MedusaAttributes.mk
        [⟨⟨0, 1, 0, .native, .bytes, "a"⟩, []⟩,
          ⟨⟨0, 1, 0, .native, .bytes, "b"⟩, []⟩]).set "a" [1]).2.set
            "b" [2]).2.set_from_raw
        (((((MedusaAttributes.mk
          [⟨⟨0, 1, 0, .native, .bytes, "a"⟩, []⟩,
            ⟨⟨0, 1, 0, .native, .bytes, "b"⟩, []⟩]).set "a" [1]).2.set
              "b" [2]).2.pack (List.replicate 1 0)))).get "a" = some [2])
    ∧ ([2] : List Nat) ≠ [1] := by
  exact ⟨by decide, by decide, by decide⟩

/-! #### Lemmas for the tree-entry monitoring bits. -/

theorem u64le_length (x : Nat) : (u64_to_le_bytes x).length = 8 := rfl

theorem u64le_getD (x k : Nat) (hk : k < 8) :
    (u64_to_le_bytes x).getD k 0 = (x >>> (8 * k)) % 256 := by
  interval_cases k <;> simp [u64_to_le_bytes]

theorem getBit_u64le (x m : Nat) (hm : m < 64) :
    bitmap.getBit (u64_to_le_bytes x) m = x.testBit m := by
  have h8 : m / 8 < 8 := by omega
  rw [bitmap.getBit, u64le_getD x (m / 8) h8]
  have h256 : (256 : Nat) = 2 ^ 8 := by norm_num
  rw [h256, Nat.testBit_mod_two_pow, Nat.testBit_shiftRight]
  have hlt : m % 8 < 8 := Nat.mod_lt _ (by norm_num)
  have heq : 8 * (m / 8) + m % 8 = m := by omega
  rw [heq]
  simp [hlt]

theorem set_access_types_find_other (c : MedusaClass) (vs : VirtualSpace)
    (other : String)
    (h1 : other ≠ MEDUSA_VS_ATTR_NAME) (h2 : other ≠ MEDUSA_VSR_ATTR_NAME)
    (h3 : other ≠ MEDUSA_VSW_ATTR_NAME) (h4 : other ≠ MEDUSA_VSS_ATTR_NAME) :
    (c.set_access_types vs).attributes.inner.find?
        (fun x => x.header.name == other)
      = c.attributes.inner.find? (fun x => x.header.name == other) := by
  simp only [MedusaClass.set_access_types, MedusaClass.set_vs,
    MedusaClass.set_vs_read, MedusaClass.set_vs_write, MedusaClass.set_vs_see,
    MedusaAttributes.set]
  rw [find?_setInner_other _ _ _ _ h4, find?_setInner_other _ _ _ _ h3,
    find?_setInner_other _ _ _ _ h2, find?_setInner_other _ _ _ _ h1]

theorem enter_tree_with_node_masks (c : MedusaClass) (covered : Nat)
    (ev : MedusaEvtypeHeader) (node : Node) (recursed : Bool) (cinfo : Nat)
    (ao as' ac : MedusaAttribute)
    (ho : c.attributes.inner.find?
      (fun x => x.header.name == MEDUSA_OACT_ATTR_NAME) = some ao)
    (horo : ao.header.is_read_only = false)
    (hs : c.attributes.inner.find?
      (fun x => x.header.name == MEDUSA_SACT_ATTR_NAME) = some as')
    (hsro : as'.header.is_read_only = false)
    (hc : c.attributes.inner.find?
      (fun x => x.header.name == MEDUSA_OCINFO_ATTR_NAME) = some ac)
    (hcro : ac.header.is_read_only = false)
    (hbit : ev.monitoring_bit < 64) :
    ∃ c', c.enter_tree_with_node covered ev node recursed cinfo = some c'
      ∧ (c'.attributes.get MEDUSA_OACT_ATTR_NAME).map
          (fun d => bitmap.getBit d ev.monitoring_bit)
        = some (covered.testBit ev.monitoring_bit
            && (!recursed && (node.has_children
              && (ev.monitoring == Monitoring.object))))
      ∧ (c'.attributes.get MEDUSA_SACT_ATTR_NAME).map
          (fun d => bitmap.getBit d ev.monitoring_bit)
        = some (covered.testBit ev.monitoring_bit
            && (!recursed && (node.has_children
              && (ev.monitoring == Monitoring.object)))) := by
  have hoa : MEDUSA_OACT_ATTR_NAME ≠ MEDUSA_SACT_ATTR_NAME := by decide
  have hso : MEDUSA_SACT_ATTR_NAME ≠ MEDUSA_OACT_ATTR_NAME := by decide
  have hco : MEDUSA_OCINFO_ATTR_NAME ≠ MEDUSA_OACT_ATTR_NAME := by decide
  have hcs : MEDUSA_OCINFO_ATTR_NAME ≠ MEDUSA_SACT_ATTR_NAME := by decide
  have hoc : MEDUSA_OACT_ATTR_NAME ≠ MEDUSA_OCINFO_ATTR_NAME := by decide
  have hsc : MEDUSA_SACT_ATTR_NAME ≠ MEDUSA_OCINFO_ATTR_NAME := by decide
  set s0 := c.set_access_types node.virtual_space with hs0
  have f0o : s0.attributes.inner.find?
      (fun x => x.header.name == MEDUSA_OACT_ATTR_NAME) = some ao := by
    rw [hs0, set_access_types_find_other c _ _ (by decide) (by decide)
      (by decide) (by decide)]
    exact ho
  have f0s : s0.attributes.inner.find?
      (fun x => x.header.name == MEDUSA_SACT_ATTR_NAME) = some as' := by
    rw [hs0, set_access_types_find_other c _ _ (by decide) (by decide)
      (by decide) (by decide)]
    exact hs
  have f0c : s0.attributes.inner.find?
      (fun x => x.header.name == MEDUSA_OCINFO_ATTR_NAME) = some ac := by
    rw [hs0, set_access_types_find_other c _ _ (by decide) (by decide)
      (by decide) (by decide)]
    exact hc
  set s1 := (s0.set_attribute_u64 MEDUSA_OACT_ATTR_NAME covered).2 with hs1
  have hstep1 := find?_setInner_self MEDUSA_OACT_ATTR_NAME
    (u64_to_le_bytes covered) s0.attributes.inner ao f0o horo
  have f1o : s1.attributes.inner.find?
      (fun x => x.header.name == MEDUSA_OACT_ATTR_NAME)
      = some { ao with data := u64_to_le_bytes covered } := by
    rw [hs1]
    exact hstep1.2
  have f1s : s1.attributes.inner.find?
      (fun x => x.header.name == MEDUSA_SACT_ATTR_NAME) = some as' := by
    rw [hs1]
    rw [MedusaClass.set_attribute_u64]
    have := find?_setInner_other MEDUSA_OACT_ATTR_NAME MEDUSA_SACT_ATTR_NAME
      (u64_to_le_bytes covered) s0.attributes.inner hso
    simp only [MedusaAttributes.set] at this ⊢
    rw [this]
    exact f0s
  have f1c : s1.attributes.inner.find?
      (fun x => x.header.name == MEDUSA_OCINFO_ATTR_NAME) = some ac := by
    rw [hs1, MedusaClass.set_attribute_u64]
    have := find?_setInner_other MEDUSA_OACT_ATTR_NAME MEDUSA_OCINFO_ATTR_NAME
      (u64_to_le_bytes covered) s0.attributes.inner hco
    simp only [MedusaAttributes.set] at this ⊢
    rw [this]
    exact f0c
  set s2 := (s1.set_attribute_u64 MEDUSA_SACT_ATTR_NAME covered).2 with hs2
  have hstep2 := find?_setInner_self MEDUSA_SACT_ATTR_NAME
    (u64_to_le_bytes covered) s1.attributes.inner as' f1s hsro
  have f2s : s2.attributes.inner.find?
      (fun x => x.header.name == MEDUSA_SACT_ATTR_NAME)
      = some { as' with data := u64_to_le_bytes covered } := by
    rw [hs2]
    exact hstep2.2
  have f2o : s2.attributes.inner.find?
      (fun x => x.header.name == MEDUSA_OACT_ATTR_NAME)
      = some { ao with data := u64_to_le_bytes covered } := by
    rw [hs2, MedusaClass.set_attribute_u64]
    have := find?_setInner_other MEDUSA_SACT_ATTR_NAME MEDUSA_OACT_ATTR_NAME
      (u64_to_le_bytes covered) s1.attributes.inner hoa
    simp only [MedusaAttributes.set] at this ⊢
    rw [this]
    exact f1o
  have f2c : s2.attributes.inner.find?
      (fun x => x.header.name == MEDUSA_OCINFO_ATTR_NAME) = some ac := by
    rw [hs2, MedusaClass.set_attribute_u64]
    have := find?_setInner_other MEDUSA_SACT_ATTR_NAME MEDUSA_OCINFO_ATTR_NAME
      (u64_to_le_bytes covered) s1.attributes.inner hcs
    simp only [MedusaAttributes.set] at this ⊢
    rw [this]
    exact f1c
  have hlen8 : (8 : Nat) * (u64_to_le_bytes covered).length = 64 := by
    rw [u64le_length]
  cases hcond : (recursed
      || !(node.has_children && (ev.monitoring == Monitoring.object))) with
  | false =>
    -- the monitoring bit is left as the covered-events mask has it
    have hfin := find?_setInner_self MEDUSA_OCINFO_ATTR_NAME
      (u64_to_le_bytes cinfo) s2.attributes.inner ac f2c hcro
    have hna : (!recursed && (node.has_children
        && (ev.monitoring == Monitoring.object))) = true := by
      cases hr : recursed
      · have hb : (node.has_children
            && (ev.monitoring == Monitoring.object)) = true := by
          rw [hr] at hcond
          simp only [Bool.false_or] at hcond
          cases hx : (node.has_children && (ev.monitoring == Monitoring.object))
          · rw [hx] at hcond
            simp at hcond
          · rfl
        rw [hb]
        simp
      · rw [hr] at hcond
        simp at hcond
    refine ⟨(s2.set_object_cinfo cinfo).2, ?_, ?_, ?_⟩
    · rw [MedusaClass.enter_tree_with_node]
      simp only [← hs0, ← hs1, ← hs2, hcond, Bool.false_eq_true, if_false]
      have : ((s2.set_object_cinfo cinfo).1) = Except.ok () := by
        rw [MedusaClass.set_object_cinfo, MedusaClass.set_attribute_u64]
        simp only [MedusaAttributes.set]
        exact hfin.1
      rw [this]
    · have hfo : (s2.set_object_cinfo cinfo).2.attributes.inner.find?
          (fun x => x.header.name == MEDUSA_OACT_ATTR_NAME)
          = some { ao with data := u64_to_le_bytes covered } := by
        rw [MedusaClass.set_object_cinfo, MedusaClass.set_attribute_u64]
        have := find?_setInner_other MEDUSA_OCINFO_ATTR_NAME
          MEDUSA_OACT_ATTR_NAME (u64_to_le_bytes cinfo) s2.attributes.inner hoc
        simp only [MedusaAttributes.set] at this ⊢
        rw [this]
        exact f2o
      rw [MedusaAttributes.get, hfo]
      simp only [Option.map_some']
      rw [getBit_u64le covered ev.monitoring_bit hbit]
      rw [hna, Bool.and_true]
    · have hfs : (s2.set_object_cinfo cinfo).2.attributes.inner.find?
          (fun x => x.header.name == MEDUSA_SACT_ATTR_NAME)
          = some { as' with data := u64_to_le_bytes covered } := by
        rw [MedusaClass.set_object_cinfo, MedusaClass.set_attribute_u64]
        have := find?_setInner_other MEDUSA_OCINFO_ATTR_NAME
          MEDUSA_SACT_ATTR_NAME (u64_to_le_bytes cinfo) s2.attributes.inner hsc
        simp only [MedusaAttributes.set] at this ⊢
        rw [this]
        exact f2s
      rw [MedusaAttributes.get, hfs]
      simp only [Option.map_some']
      rw [getBit_u64le covered ev.monitoring_bit hbit]
      rw [hna, Bool.and_true]
  | true =>
    -- the monitoring bit is removed from both masks
    set s3a := (s2.remove_object_act ev.monitoring_bit).2 with hs3a
    have hstep3 := find?_modifyInner_self MEDUSA_OACT_ATTR_NAME
      (fun oact => bitmap.clear_bit oact ev.monitoring_bit)
      s2.attributes.inner _ f2o
    have f3o : s3a.attributes.inner.find?
        (fun x => x.header.name == MEDUSA_OACT_ATTR_NAME)
        = some { ao with
            data := bitmap.clear_bit (u64_to_le_bytes covered)
              ev.monitoring_bit } := by
      rw [hs3a]
      exact hstep3.2
    have f3s : s3a.attributes.inner.find?
        (fun x => x.header.name == MEDUSA_SACT_ATTR_NAME)
        = some { as' with data := u64_to_le_bytes covered } := by
      rw [hs3a, MedusaClass.remove_object_act]
      have := find?_modifyInner_other MEDUSA_OACT_ATTR_NAME
        MEDUSA_SACT_ATTR_NAME
        (fun oact => bitmap.clear_bit oact ev.monitoring_bit)
        s2.attributes.inner hso
      simp only [MedusaAttributes.modify] at this ⊢
      rw [this]
      exact f2s
    have f3c : s3a.attributes.inner.find?
        (fun x => x.header.name == MEDUSA_OCINFO_ATTR_NAME) = some ac := by
      rw [hs3a, MedusaClass.remove_object_act]
      have := find?_modifyInner_other MEDUSA_OACT_ATTR_NAME
        MEDUSA_OCINFO_ATTR_NAME
        (fun oact => bitmap.clear_bit oact ev.monitoring_bit)
        s2.attributes.inner hco
      simp only [MedusaAttributes.modify] at this ⊢
      rw [this]
      exact f2c
    set s3 := (s3a.remove_subject_act ev.monitoring_bit).2 with hs3
    have hstep4 := find?_modifyInner_self MEDUSA_SACT_ATTR_NAME
      (fun sact => bitmap.clear_bit sact ev.monitoring_bit)
      s3a.attributes.inner _ f3s
    have f4s : s3.attributes.inner.find?
        (fun x => x.header.name == MEDUSA_SACT_ATTR_NAME)
        = some { as' with
            data := bitmap.clear_bit (u64_to_le_bytes covered)
              ev.monitoring_bit } := by
      rw [hs3]
      exact hstep4.2
    have f4o : s3.attributes.inner.find?
        (fun x => x.header.name == MEDUSA_OACT_ATTR_NAME)
        = some { ao with
            data := bitmap.clear_bit (u64_to_le_bytes covered)
              ev.monitoring_bit } := by
      rw [hs3, MedusaClass.remove_subject_act]
      have := find?_modifyInner_other MEDUSA_SACT_ATTR_NAME
        MEDUSA_OACT_ATTR_NAME
        (fun sact => bitmap.clear_bit sact ev.monitoring_bit)
        s3a.attributes.inner hoa
      simp only [MedusaAttributes.modify] at this ⊢
      rw [this]
      exact f3o
    have f4c : s3.attributes.inner.find?
        (fun x => x.header.name == MEDUSA_OCINFO_ATTR_NAME) = some ac := by
      rw [hs3, MedusaClass.remove_subject_act]
      have := find?_modifyInner_other MEDUSA_SACT_ATTR_NAME
        MEDUSA_OCINFO_ATTR_NAME
        (fun sact => bitmap.clear_bit sact ev.monitoring_bit)
        s3a.attributes.inner hcs
      simp only [MedusaAttributes.modify] at this ⊢
      rw [this]
      exact f3c
    have hfin := find?_setInner_self MEDUSA_OCINFO_ATTR_NAME
      (u64_to_le_bytes cinfo) s3.attributes.inner ac f4c hcro
    have hclear : bitmap.getBit
        (bitmap.clear_bit (u64_to_le_bytes covered) ev.monitoring_bit)
        ev.monitoring_bit = false := by
      rw [getBit_clear_bit _ _ _ (by omega) (by omega)]
      simp
    have hrhs : (covered.testBit ev.monitoring_bit
        && (!recursed && (node.has_children
          && (ev.monitoring == Monitoring.object)))) = false := by
      cases hr : recursed
      · have hb : (node.has_children
            && (ev.monitoring == Monitoring.object)) = false := by
          rw [hr] at hcond
          simp only [Bool.false_or] at hcond
          cases hx : (node.has_children && (ev.monitoring == Monitoring.object))
          · rfl
          · rw [hx] at hcond
            simp at hcond
        rw [hb]
        simp
      · simp
    refine ⟨(s3.set_object_cinfo cinfo).2, ?_, ?_, ?_⟩
    · rw [MedusaClass.enter_tree_with_node]
      simp only [← hs0, ← hs1, ← hs2, hcond, if_true, ← hs3a, ← hs3]
      have : ((s3.set_object_cinfo cinfo).1) = Except.ok () := by
        rw [MedusaClass.set_object_cinfo, MedusaClass.set_attribute_u64]
        simp only [MedusaAttributes.set]
        exact hfin.1
      rw [this]
    · have hfo : (s3.set_object_cinfo cinfo).2.attributes.inner.find?
          (fun x => x.header.name == MEDUSA_OACT_ATTR_NAME)
          = some { ao with
              data := bitmap.clear_bit (u64_to_le_bytes covered)
                ev.monitoring_bit } := by
        rw [MedusaClass.set_object_cinfo, MedusaClass.set_attribute_u64]
        have := find?_setInner_other MEDUSA_OCINFO_ATTR_NAME
          MEDUSA_OACT_ATTR_NAME (u64_to_le_bytes cinfo) s3.attributes.inner hoc
        simp only [MedusaAttributes.set] at this ⊢
        rw [this]
        exact f4o
      rw [MedusaAttributes.get, hfo]
      simp only [Option.map_some']
      rw [hclear, hrhs]
    · have hfs : (s3.set_object_cinfo cinfo).2.attributes.inner.find?
          (fun x => x.header.name == MEDUSA_SACT_ATTR_NAME)
          = some { as' with
              data := bitmap.clear_bit (u64_to_le_bytes covered)
                ev.monitoring_bit } := by
        rw [MedusaClass.set_object_cinfo, MedusaClass.set_attribute_u64]
        have := find?_setInner_other MEDUSA_OCINFO_ATTR_NAME
          MEDUSA_SACT_ATTR_NAME (u64_to_le_bytes cinfo) s3.attributes.inner hsc
        simp only [MedusaAttributes.set] at this ⊢
        rw [this]
        exact f4s
      rw [MedusaAttributes.get, hfs]
      simp only [Option.map_some']
      rw [hclear, hrhs]

/-- Claim C4 (amended): after `enter_tree`'s segment-by-segment walk
(remaining at the most recent recursive ancestor when a segment has no
matching child) lands on `node` with recursion flag `recursed`, the
subject's object-action and subject-action masks contain the event's
monitoring bit if and only if the config's covered-events mask contains
that bit, the walk did not recurse, the final node has children, and the
event's monitoring side is object; otherwise the monitoring bit is
cleared from both masks. -/
theorem enter_tree_monitoring_spec (c : MedusaClass) (covered : Nat)
    (root : Node) (ev : MedusaEvtypeHeader) (path : List Char) (cinfo : Nat)
    (node : Node) (recursed : Bool) (ao as' ac : MedusaAttribute)
    (hpath : path.head? = some '/')
    (hwalk : walkLoop root (if root.is_recursive then some root else none)
      false (if path = ['/'] then []
        else (split_terminator_slash path).drop 1) = some (node, recursed))
    (ho : c.attributes.inner.find?
      (fun x => x.header.name == MEDUSA_OACT_ATTR_NAME) = some ao)
    (horo : ao.header.is_read_only = false)
    (hs : c.attributes.inner.find?
      (fun x => x.header.name == MEDUSA_SACT_ATTR_NAME) = some as')
    (hsro : as'.header.is_read_only = false)
    (hc : c.attributes.inner.find?
      (fun x => x.header.name == MEDUSA_OCINFO_ATTR_NAME) = some ac)
    (hcro : ac.header.is_read_only = false)
    (hbit : ev.monitoring_bit < 64) :
    ∃ c', c.enter_tree covered root ev path cinfo = some c'
      ∧ (c'.attributes.get MEDUSA_OACT_ATTR_NAME).map
          (fun d => bitmap.getBit d ev.monitoring_bit)
        = some (covered.testBit ev.monitoring_bit
            && (!recursed && (node.has_children
              && (ev.monitoring == Monitoring.object))))
      ∧ (c'.attributes.get MEDUSA_SACT_ATTR_NAME).map
          (fun d => bitmap.getBit d ev.monitoring_bit)
        = some (covered.testBit ev.monitoring_bit
            && (!recursed && (node.has_children
              && (ev.monitoring == Monitoring.object)))) := by
  obtain ⟨c', hrun, hoact, hsact⟩ := enter_tree_with_node_masks c covered ev
    node recursed cinfo ao as' ac ho horo hs hsro hc hcro hbit
  refine ⟨c', ?_, hoact, hsact⟩
  rw [MedusaClass.enter_tree, if_neg (by simp [hpath])]
  simp only [hwalk]
  exact hrun

/-- Claim C4 witness: a two-level tree whose child `a` has a grandchild;
entering `/a` with covered-events mask 1 and an object-monitored event of
bit 0 keeps bit 0 set in both masks. -/
theorem enter_tree_monitoring_spec_witness :
    ∃ c', (MedusaClass.mk ⟨1, 24, "process"⟩ (MedusaAttributes.mk
        [⟨⟨0, 8, 0, .native, .bitmapType, "med_oact"⟩, []⟩,
          ⟨⟨8, 8, 0, .native, .bitmapType, "med_sact"⟩, []⟩,
          ⟨⟨16, 8, 0, .native, .unsigned, "o_cinfo"⟩, []⟩])).enter_tree 1
        (Node.mk (fun _ => false) false ⟨[], [], [], []⟩
          [Node.mk (fun p => p == ['a']) false ⟨[], [], [], []⟩
            [Node.mk (fun _ => false) false ⟨[], [], [], []⟩ []]])
        ⟨7, 16, Monitoring.object, 0, 1, none, "getfile", ("filename", "")⟩
        ['/', 'a'] 7 = some c'
      ∧ (c'.attributes.get MEDUSA_OACT_ATTR_NAME).map
          (fun d => bitmap.getBit d 0)
        = some ((1 : Nat).testBit 0
            && (!false && ((Node.mk (fun p => p == ['a']) false
                  ⟨[], [], [], []⟩
                  [Node.mk (fun _ => false) false
                    ⟨[], [], [], []⟩ []]).has_children
              && (Monitoring.object == Monitoring.object))))
      ∧ (c'.attributes.get MEDUSA_SACT_ATTR_NAME).map
          (fun d => bitmap.getBit d 0)
        = some ((1 : Nat).testBit 0
            && (!false && ((Node.mk (fun p => p == ['a']) false
                  ⟨[], [], [], []⟩
                  [Node.mk (fun _ => false) false
                    ⟨[], [], [], []⟩ []]).has_children
              && (Monitoring.object == Monitoring.object)))) :=
  enter_tree_monitoring_spec
    (MedusaClass.mk ⟨1, 24, "process"⟩ (MedusaAttributes.mk
      [⟨⟨0, 8, 0, .native, .bitmapType, "med_oact"⟩, []⟩,
        ⟨⟨8, 8, 0, .native, .bitmapType, "med_sact"⟩, []⟩,
        ⟨⟨16, 8, 0, .native, .unsigned, "o_cinfo"⟩, []⟩])) 1
    (Node.mk (fun _ => false) false ⟨[], [], [], []⟩
      [Node.mk (fun p => p == ['a']) false ⟨[], [], [], []⟩
        [Node.mk (fun _ => false) false ⟨[], [], [], []⟩ []]])
    ⟨7, 16, Monitoring.object, 0, 1, none, "getfile", ("filename", "")⟩
    ['/', 'a'] 7
    (Node.mk (fun p => p == ['a']) false ⟨[], [], [], []⟩
      [Node.mk (fun _ => false) false ⟨[], [], [], []⟩ []]) false
    ⟨⟨0, 8, 0, .native, .bitmapType, "med_oact"⟩, []⟩
    ⟨⟨8, 8, 0, .native, .bitmapType, "med_sact"⟩, []⟩
    ⟨⟨16, 8, 0, .native, .unsigned, "o_cinfo"⟩, []⟩
    rfl rfl (by decide) (by decide) (by decide) (by decide) (by decide)
    (by decide) (by decide)

/-- Claim C4 counterexample: the same walk (no recursion, final node with
children, monitoring side object) with covered-events mask 0 leaves both
masks without the monitoring bit, so the claimed iff (which does not
mention the covered-events mask) fails. -/
theorem enter_tree_monitoring_counterexample :
    (((MedusaClass.mk ⟨1, 24, "process"⟩ (MedusaAttributes.mk
        [⟨⟨0, 8, 0, .native, .bitmapType, "med_oact"⟩, []⟩,
          ⟨⟨8, 8, 0, .native, .bitmapType, "med_sact"⟩, []⟩,
          ⟨⟨16, 8, 0, .native, .unsigned, "o_cinfo"⟩, []⟩])).enter_tree 0
        (Node.mk (fun _ => false) false ⟨[], [], [], []⟩
          [Node.mk (fun p => p == ['a']) false ⟨[], [], [], []⟩
            [Node.mk (fun _ => false) false ⟨[], [], [], []⟩ []]])
        ⟨7, 16, Monitoring.object, 0, 1, none, "getfile", ("filename", "")⟩
        ['/', 'a'] 7).bind
        (fun x => x.attributes.get MEDUSA_OACT_ATTR_NAME)).map
        (fun d => bitmap.getBit d 0) = some false
    ∧ (((MedusaClass.mk ⟨1, 24, "process"⟩ (MedusaAttributes.mk
        [⟨⟨0, 8, 0, .native, .bitmapType, "med_oact"⟩, []⟩,
          ⟨⟨8, 8, 0, .native, .bitmapType, "med_sact"⟩, []⟩,
          ⟨⟨16, 8, 0, .native, .unsigned, "o_cinfo"⟩, []⟩])).enter_tree 0
        (Node.mk (fun _ => false) false ⟨[], [], [], []⟩
          [Node.mk (fun p => p == ['a']) false ⟨[], [], [], []⟩
            [Node.mk (fun _ => false) false ⟨[], [], [], []⟩ []]])
        ⟨7, 16, Monitoring.object, 0, 1, none, "getfile", ("filename", "")⟩
        ['/', 'a'] 7).bind
        (fun x => x.attributes.get MEDUSA_SACT_ATTR_NAME)).map
        (fun d => bitmap.getBit d 0) = some false
    ∧ walkLoop
        (Node.mk (fun _ => false) false ⟨[], [], [], []⟩
          [Node.mk (fun p => p == ['a']) false ⟨[], [], [], []⟩
            [Node.mk (fun _ => false) false ⟨[], [], [], []⟩ []]])
        none false [['a']]
        = some (Node.mk (fun p => p == ['a']) false ⟨[], [], [], []⟩
            [Node.mk (fun _ => false) false ⟨[], [], [], []⟩ []], false)
    ∧ (Node.mk (fun p => p == ['a']) false ⟨[], [], [], []⟩
        [Node.mk (fun _ => false) false ⟨[], [], [], []⟩ []]).has_children
      = true
    ∧ (⟨7, 16, Monitoring.object, 0, 1, none, "getfile",
        ("filename", "")⟩ : MedusaEvtypeHeader).monitoring
      = Monitoring.object := by
  exact ⟨by decide, by decide, rfl, rfl, rfl⟩

/-- Claim C1 witness: a store with one read-only attribute `"vs"`. -/
theorem set_read_only_rejected_witness :
    (MedusaAttributes.mk
        [⟨⟨0, 2, 0x80, .native, .bitmapType, "vs"⟩, [5, 6]⟩]).set "vs" [9]
      = (.error (.modifyReadOnlyError "vs"),
          MedusaAttributes.mk
            [⟨⟨0, 2, 0x80, .native, .bitmapType, "vs"⟩, [5, 6]⟩]) :=
  set_read_only_rejected
    (MedusaAttributes.mk [⟨⟨0, 2, 0x80, .native, .bitmapType, "vs"⟩, [5, 6]⟩])
    "vs" [9] ⟨⟨0, 2, 0x80, .native, .bitmapType, "vs"⟩, [5, 6]⟩
    (by decide) (by decide)

end Rustable
